import Mathlib

/-!
Shallow embedding of the snapraid sync engine (src/cmdline/sync.c):
the hash pass `state_hash_process`, the sync pass `state_sync_process`
and the driver `state_sync`, together with the block-state model they
manipulate.  I/O outcomes (open/stat/read/write/sync results, progress
callbacks) are supplied as oracle inputs; everything else follows the
control flow of the C source.  Machine integers are modelled as `Nat`
(the counters never overflow in the reasoning below) and block contents
as abstract `Nat` values hashed by oracle hash functions.
-/

/-- List lookup with default, as used throughout the model. -/
def nthD {α : Type} : List α → Nat → α → α
  | [], _, d => d
  | x :: _, 0, _ => x
  | _ :: xs, n + 1, d => nthD xs n d

/-- In-place list update; out-of-range updates are dropped. -/
def upd {α : Type} : List α → Nat → α → List α
  | [], _, _ => []
  | _ :: xs, 0, a => a :: xs
  | x :: xs, n + 1, a => x :: upd xs n a

/-- Block states of the per-disk block arrays (BLOCK_STATE_* in elem.h). -/
inductive BlockState
  | empty
  | blk
  | chg
  | rep
  | deleted
deriving DecidableEq

/-- A block of a data disk: its state and its stored hash.  The hash is
an abstract `Nat`; the all-zero hash sentinel is modelled as `0`. -/
structure Block where
  bstate : BlockState
  hash : Nat
deriving DecidableEq

/-- Modelled from the spec: `block_has_file(b) ⇔ state ∈ {BLK, CHG, REP}`
(the helper lives in elem.h, which is not under src/). -/
def hasFile : BlockState → Bool
  | .blk => true
  | .chg => true
  | .rep => true
  | _ => false

/-- Modelled from the spec: `block_has_updated_hash(b) ⇔ state ∈ {BLK, REP}`
(the helper lives in elem.h, which is not under src/). -/
def hasUpdatedHash : BlockState → Bool
  | .blk => true
  | .rep => true
  | _ => false

/-- Modelled from the spec: `block_has_invalid_parity(b) ⇔ state ∈ {CHG, REP, DELETED}`
(the helper lives in elem.h, which is not under src/). -/
def hasInvalidParity : BlockState → Bool
  | .chg => true
  | .rep => true
  | .deleted => true
  | _ => false

/-- Modelled from the spec: `hash_is_real` is true when the stored hash is
not the zero sentinel. -/
def hashIsReal (h : Nat) : Bool := h != 0

/-- A per-disk slot of the block array at one index: `none` is the
BLOCK_EMPTY sentinel (no disk at this position, or unused position). -/
abbrev Slot0 := Option Block

/-- State of an `Option Block` slot, `empty` for the sentinel. -/
def stateOf (ob : Slot0) : Option BlockState := ob.map Block.bstate

/-- Block state looked up through a block array (block_state_get). -/
def stateAt (bs : List Slot0) (k : Nat) : BlockState :=
  match nthD bs k none with
  | some b => b.bstate
  | none => .empty

/-- Stored hash looked up through a block array. -/
def hashAt (bs : List Slot0) (k : Nat) : Nat :=
  match nthD bs k none with
  | some b => b.hash
  | none => 0

/-- Per-index info entry: packed `(timestamp, bad, rehash)` triple. -/
structure Info where
  time : Nat
  bad : Bool
  rehash : Bool
deriving DecidableEq, Inhabited

/-- info_make(now, 0, 0): fresh entry with cleared flags. -/
def infoMake (now : Nat) : Info := ⟨now, false, false⟩

/-- info_set_bad: set the bad flag keeping the other fields. -/
def infoSetBad (i : Info) : Info := ⟨i.time, true, i.rehash⟩

/-- Result of handle_close for the oracle. -/
inductive CloseRes
  | ok
  | eio
  | other
deriving DecidableEq

/-- Result of handle_open for the oracle. -/
inductive OpenRes
  | ok
  | eio
  | enoent
  | eacces
  | other
deriving DecidableEq

/-- Result of handle_read for the oracle: on success the block content
and the number of bytes read. -/
inductive ReadRes
  | ok (data : Nat) (size : Nat)
  | eio
  | other
deriving DecidableEq

/-- Result of parity_read for the oracle. -/
inductive PRes
  | ok (data : Nat)
  | eio
  | other
deriving DecidableEq

/-- Result of parity_write for the oracle. -/
inductive WRes
  | ok
  | eio
  | other
deriving DecidableEq

/-- Per-disk I/O oracle for one block index: whether a different file is
open on the handle, and the outcomes of close/open/stat/read. -/
structure DiskCase where
  closeNeeded : Bool
  closeRes : CloseRes
  openRes : OpenRes
  statMatches : Bool
  readRes : ReadRes
deriving DecidableEq

/-- Events observed by the temporal claims: parity writes, successful
parity syncs, and content-file writes (state_write). -/
inductive Ev
  | pwrite (l : Nat) (i : Nat)
  | psync (l : Nat)
  | swrite
deriving DecidableEq

/-- Global environment of a sync run: configuration plus the oracles for
the hash functions, the RAID codec and the tail-end parity syncs. -/
structure SyncEnv where
  diskmax : Nat
  level : Nat
  blockSize : Nat
  ioErrorLimit : Nat
  autosave : Nat
  forceAutosaveAt : Nat
  expectRecoverable : Bool
  now : Nat
  hashCur : Nat → Nat → Nat
  hashPrev : Nat → Nat → Nat
  raidGen : List Nat → List Nat
  raidRec : List Nat → List Nat → List Nat
  padZero : Nat → Nat → Nat
  progressBeginOk : Bool
  finalSyncOk : Nat → Bool
  closeFails : Nat

/-- memhash with the active algorithm: previous hash function when the
info entry's rehash flag is set, current one otherwise. -/
def computedHash (env : SyncEnv) (rehash : Bool) (data size : Nat) : Nat :=
  if rehash then env.hashPrev data size else env.hashCur data size

/-- Entry of the failed[] set: the disk index and the size recorded for
the block (block_size for invalid-parity entries, read_size for silent
errors); the block itself is reached through the block array. -/
structure Failed where
  index : Nat
  size : Nat
deriving DecidableEq

/-- State threaded through the per-disk sub-loop of the sync pass. -/
structure LoopSt where
  blocks : List Slot0
  buffers : List Nat
  failed : List Failed
  rehandle : List (Option Nat)
  parityNeeds : Bool
  errB : Bool
  silentB : Bool
  ioB : Bool
  errors : Nat
  silents : Nat
  ios : Nat
  asserts : Bool
deriving Inhabited

/-- Data carried out on a bail (goto bail) of the sync pass. -/
structure BailSt where
  blocks : List Slot0
  errors : Nat
  silents : Nat
  ios : Nat
  events : List Ev
  asserts : Bool
deriving Inhabited

/-- Initial per-index loop state (locals at the top of the `for i` body
of state_sync_process, with `parity_needs_to_be_updated` primed by the
bad flag). -/
def initLoopSt (info : Info) (blocks : List Slot0) (e0 s0 io0 : Nat) : LoopSt :=
  ⟨blocks, List.replicate blocks.length 0, [], List.replicate blocks.length none,
   info.bad, false, false, false, e0, s0, io0, true⟩

/-- One iteration of the per-disk sub-loop of state_sync_process
(sync.c lines 541-820) for disk `j`. -/
def diskStep (env : SyncEnv) (rehash : Bool) (j : Nat) (dc : DiskCase) (st : LoopSt) :
    Except BailSt LoopSt :=
  match nthD st.blocks j none with
  | none => .ok { st with rehandle := upd st.rehandle j none, buffers := upd st.buffers j 0 }
  | some b =>
    let fl := if hasInvalidParity b.bstate then st.failed ++ [⟨j, env.blockSize⟩] else st.failed
    let pn := if hasInvalidParity b.bstate then st.parityNeeds || (b.bstate != BlockState.chg)
              else st.parityNeeds
    let rh0 := upd st.rehandle j none
    if hasFile b.bstate = false then
      .ok { st with rehandle := rh0, failed := fl, parityNeeds := pn,
                    buffers := upd st.buffers j 0 }
    else if dc.closeNeeded && (dc.closeRes != CloseRes.ok) then
      if dc.closeRes = CloseRes.eio then
        .error ⟨st.blocks, st.errors, st.silents, st.ios + 1, [], st.asserts⟩
      else
        .error ⟨st.blocks, st.errors + 1, st.silents, st.ios, [], st.asserts⟩
    else
      match dc.openRes with
      | .eio => .error ⟨st.blocks, st.errors, st.silents, st.ios + 1, [], st.asserts⟩
      | .enoent => .ok { st with rehandle := rh0, failed := fl, parityNeeds := pn,
                                 errors := st.errors + 1, errB := true }
      | .eacces => .ok { st with rehandle := rh0, failed := fl, parityNeeds := pn,
                                 errors := st.errors + 1, errB := true }
      | .other => .error ⟨st.blocks, st.errors + 1, st.silents, st.ios, [], st.asserts⟩
      | .ok =>
        if dc.statMatches = false then
          .ok { st with rehandle := rh0, failed := fl, parityNeeds := pn,
                        errors := st.errors + 1, errB := true }
        else
          match dc.readRes with
          | .eio =>
            if env.ioErrorLimit ≤ st.ios then
              .error ⟨st.blocks, st.errors, st.silents, st.ios + 1, [], st.asserts⟩
            else
              .ok { st with rehandle := rh0, failed := fl, parityNeeds := pn,
                            ios := st.ios + 1, ioB := true }
          | .other => .error ⟨st.blocks, st.errors + 1, st.silents, st.ios, [], st.asserts⟩
          | .ok data size =>
            let h := computedHash env rehash data size
            let rh1 := if rehash then upd st.rehandle j (some (env.hashCur data size)) else rh0
            if hasUpdatedHash b.bstate then
              if h ≠ b.hash then
                if hasInvalidParity b.bstate then
                  .ok { st with rehandle := rh1, failed := fl, parityNeeds := pn,
                                buffers := upd st.buffers j data,
                                errors := st.errors + 1, errB := true }
                else
                  .ok { st with rehandle := rh1, failed := fl ++ [⟨j, size⟩], parityNeeds := pn,
                                buffers := upd st.buffers j data,
                                silents := st.silents + 1, silentB := true }
              else
                .ok { st with rehandle := rh1, failed := fl, parityNeeds := pn,
                              buffers := upd st.buffers j data }
            else
              let asr := if pn = false then st.asserts && (b.bstate == BlockState.chg)
                         else st.asserts
              let pn2 := if pn = false then
                  (if hashIsReal b.hash then (h != b.hash) else true)
                else pn
              .ok { st with rehandle := rh1, failed := fl, parityNeeds := pn2, asserts := asr,
                            buffers := upd st.buffers j data,
                            blocks := upd st.blocks j (some { b with hash := h }) }

/-- The per-disk sub-loop of state_sync_process, disk `j` onward. -/
def diskLoop (env : SyncEnv) (rehash : Bool) : List DiskCase → Nat → LoopSt →
    Except BailSt LoopSt
  | [], _, st => .ok st
  | dc :: rest, j, st =>
    match diskStep env rehash j dc st with
    | .error b => .error b
    | .ok st' => diskLoop env rehash rest (j + 1) st'

/-- Accumulator of the recovery-map setup loop (sync.c lines 830-858). -/
structure RecSetup where
  buffers : List Nat
  scratch : List Nat
  failedMap : List Nat
  something : Bool
  examined : Nat

/-- Setup loop of the silent-error recovery: copy every failed buffer to
its scratch slot, zero CHG blocks with a zero hash, and collect the
other failed entries into failed_map, breaking when they exceed the
parity level. -/
def recSetup (env : SyncEnv) (blocks : List Slot0) : List Failed → RecSetup → RecSetup
  | [], acc => acc
  | f :: rest, acc =>
    let acc := { acc with
      something := acc.something || (stateAt blocks f.index == BlockState.blk),
      scratch := upd acc.scratch f.index (nthD acc.buffers f.index 0) }
    if stateAt blocks f.index == BlockState.chg && (hashAt blocks f.index == 0) then
      recSetup env blocks rest
        { acc with buffers := upd acc.buffers f.index 0, examined := acc.examined + 1 }
    else if env.level ≤ acc.failedMap.length then
      acc
    else
      recSetup env blocks rest
        { acc with failedMap := acc.failedMap ++ [f.index], examined := acc.examined + 1 }

/-- State of the parity-read loop inside the recovery attempt. -/
structure PReadSt where
  pbuf : List Nat
  ioB : Bool
  ios : Nat
  errors : Nat

/-- Parity-read loop of the recovery attempt (sync.c lines 868-899):
EIO under the limit marks the block and keeps reading, EIO at the limit
or any other error bails. -/
def parityReads (env : SyncEnv) : List PRes → PReadSt → Except PReadSt PReadSt
  | [], st => .ok st
  | r :: rest, st =>
    match r with
    | .ok d => parityReads env rest { st with pbuf := st.pbuf ++ [d] }
    | .eio =>
      if env.ioErrorLimit ≤ st.ios then
        .error { st with ios := st.ios + 1 }
      else
        parityReads env rest { st with ios := st.ios + 1, ioB := true, pbuf := st.pbuf ++ [0] }
    | .other => .error { st with errors := st.errors + 1 }

/-- Write the recovered values back at the failed-map positions, as
raid_rec does on the buffer vector. -/
def writeAt : List Nat → List Nat → List Nat → List Nat
  | [], _, bufs => bufs
  | _ :: _, [], bufs => bufs
  | i :: is, v :: vs, bufs => writeAt is vs (upd bufs i v)

/-- Post-recovery check loop (sync.c lines 910-941): verify every failed
BLK against its stored hash (pad the tail with zeros), restore every
other failed buffer from its scratch copy; break on the first mismatch.
Returns the buffers and whether the loop completed. -/
def recCheck (env : SyncEnv) (rehash : Bool) (blocks : List Slot0) (scratch : List Nat) :
    List Failed → List Nat → List Nat × Bool
  | [], bufs => (bufs, true)
  | f :: rest, bufs =>
    if stateAt blocks f.index == BlockState.blk then
      if computedHash env rehash (nthD bufs f.index 0) f.size ≠ hashAt blocks f.index then
        (bufs, false)
      else
        let bufs :=
          if f.size < env.blockSize then
            upd bufs f.index (env.padZero (nthD bufs f.index 0) f.size)
          else bufs
        recCheck env rehash blocks scratch rest bufs
    else
      recCheck env rehash blocks scratch rest (upd bufs f.index (nthD scratch f.index 0))

/-- Outcome of the recovery attempt. -/
structure RecOut where
  st : LoopSt
  fixedB : Bool
  recApplied : Bool

/-- Raid reconstruction step of the recovery attempt, after the setup
loop built `su`: read the parity, call raid_rec, check and restore. -/
def recoveryCore (env : SyncEnv) (rehash : Bool) (pReads : List PRes) (st : LoopSt)
    (su : RecSetup) : Except BailSt RecOut :=
  if su.something && (su.examined == st.failed.length) then
    match parityReads env pReads ⟨[], st.ioB, st.ios, st.errors⟩ with
    | .error p => .error ⟨st.blocks, p.errors, st.silents, p.ios, [], st.asserts⟩
    | .ok p =>
      if p.ioB = false then
        let chk := recCheck env rehash st.blocks su.scratch st.failed
          (writeAt su.failedMap (env.raidRec su.failedMap (su.buffers ++ p.pbuf)) su.buffers)
        .ok ⟨{ st with buffers := chk.1, ios := p.ios, errors := p.errors }, chk.2, true⟩
      else
        .ok ⟨{ st with buffers := su.buffers, ioB := true, ios := p.ios, errors := p.errors },
             false, false⟩
  else
    .ok ⟨{ st with buffers := su.buffers }, false, false⟩

/-- Silent-error recovery attempt of the sync pass (sync.c lines
825-948): runs only when there are only silent errors, reconstructs
through raid_rec if at least one failed block is a BLK and the failures
fit the parity level, then checks and restores the buffers. -/
def recoveryPhase (env : SyncEnv) (rehash : Bool) (pReads : List PRes) (st : LoopSt) :
    Except BailSt RecOut :=
  if st.errB = false ∧ st.ioB = false ∧ st.silentB = true then
    recoveryCore env rehash pReads st
      (recSetup env st.blocks st.failed
        ⟨st.buffers, List.replicate st.buffers.length 0, [], false, 0⟩)
  else
    .ok ⟨st, false, false⟩

/-- State of the parity-write loop of the commit step. -/
structure PWriteSt where
  ioB : Bool
  ios : Nat
  errors : Nat
  events : List Ev

/-- Parity-write loop of the commit step (sync.c lines 963-994): every
attempted write is an issued `pwrite` event; EIO under the limit marks
the block and keeps writing, EIO at the limit or any other error bails. -/
def parityWrites (env : SyncEnv) (i : Nat) : List WRes → Nat → PWriteSt →
    Except PWriteSt PWriteSt
  | [], _, st => .ok st
  | w :: rest, l, st =>
    let st := { st with events := st.events ++ [Ev.pwrite l i] }
    match w with
    | .ok => parityWrites env i rest (l + 1) st
    | .eio =>
      if env.ioErrorLimit ≤ st.ios then
        .error { st with ios := st.ios + 1 }
      else
        parityWrites env i rest (l + 1) { st with ios := st.ios + 1, ioB := true }
    | .other => .error { st with errors := st.errors + 1 }

/-- Commit transition of one slot (sync.c lines 1000-1019): keep the
sentinel, erase DELETED to the sentinel, mark everything else BLK. -/
def commitOne (ob : Slot0) : Slot0 :=
  match ob with
  | none => none
  | some b => if b.bstate = BlockState.deleted then none else some { b with bstate := BlockState.blk }

/-- Commit transitions over the whole block row. -/
def commitBlocks (bs : List Slot0) : List Slot0 := bs.map commitOne

/-- Flush the stashed new-algorithm hashes into their blocks (sync.c
lines 1032-1038). -/
def applyRehandle : List Slot0 → List (Option Nat) → List Slot0
  | [], _ => []
  | bs, [] => bs
  | ob :: bs, oh :: rhs =>
    (match ob, oh with
     | some b, some h => some { b with hash := h }
     | ob', _ => ob') :: applyRehandle bs rhs

/-- Per-index outcome of the sync pass when the index does not bail. -/
structure DoneRec where
  blocks : List Slot0
  newInfo : Info
  errB : Bool
  silentB : Bool
  fixedB : Bool
  ioBPre : Bool
  ioBFinal : Bool
  parityNeeds : Bool
  recApplied : Bool
  errors : Nat
  silents : Nat
  ios : Nat
  events : List Ev
  buffers : List Nat
  parityOut : List Nat
  asserts : Bool
deriving Inhabited

/-- Commit transitions unless the parity writes saw an I/O error
(sync.c line 998: `if (!io_error_on_this_block)`). -/
def commitWhen (skip : Bool) (bs : List Slot0) : List Slot0 :=
  if skip then bs else commitBlocks bs

/-- Conditional flush of the stashed rehash hashes. -/
def commitAndFlush (c : Bool) (bs : List Slot0) (rh : List (Option Nat)) : List Slot0 :=
  if c then applyRehandle bs rh else bs

/-- Info entry written at the end of one index (sync.c lines 1022-1052):
a fresh info_make for a clean parity rewrite, info_set_bad when a silent
or I/O error was seen, the old entry otherwise. -/
def newInfoOf (env : SyncEnv) (info : Info) (parityNeeds silentB ioFinal : Bool) : Info :=
  if parityNeeds && !silentB && !ioFinal then infoMake env.now
  else if silentB || ioFinal then infoSetBad info
  else info

/-- Parity generate, commit and info update of one index (sync.c lines
950-1052), after the per-disk loop and the recovery attempt. -/
def finishIndex (env : SyncEnv) (i : Nat) (info : Info) (pWrites : List WRes)
    (st1 : LoopSt) (fixedB recApplied : Bool) : Except BailSt DoneRec :=
  if st1.errB = false ∧ st1.ioB = false ∧ (st1.silentB = false ∨ fixedB = true) then
    let pOut := if st1.parityNeeds then env.raidGen st1.buffers else []
    match (if st1.parityNeeds then parityWrites env i pWrites 0 ⟨false, st1.ios, st1.errors, []⟩
           else .ok ⟨false, st1.ios, st1.errors, []⟩) with
    | .error w => .error ⟨st1.blocks, w.errors, st1.silents, w.ios, w.events, st1.asserts⟩
    | .ok w =>
      let blocks2 := commitAndFlush (st1.parityNeeds && !st1.silentB && !w.ioB && info.rehash)
        (commitWhen w.ioB st1.blocks) st1.rehandle
      .ok ⟨blocks2, newInfoOf env info st1.parityNeeds st1.silentB w.ioB,
           st1.errB, st1.silentB, fixedB, st1.ioB, w.ioB, st1.parityNeeds,
           recApplied, w.errors, st1.silents, w.ios, w.events, st1.buffers, pOut, st1.asserts⟩
  else
    .ok ⟨st1.blocks, newInfoOf env info false st1.silentB st1.ioB,
         st1.errB, st1.silentB, fixedB, st1.ioB, st1.ioB, st1.parityNeeds,
         recApplied, st1.errors, st1.silents, st1.ios, [], st1.buffers, [], st1.asserts⟩

/-- Processing of one enabled block index by state_sync_process (the
body of the `for i` loop, lines 495-1052): per-disk reads and checks,
optional silent-error recovery, parity generation and commit, info
update. -/
def processIndex (env : SyncEnv) (i : Nat) (info : Info) (blocks : List Slot0)
    (dcs : List DiskCase) (pReads : List PRes) (pWrites : List WRes)
    (e0 s0 io0 : Nat) : Except BailSt DoneRec :=
  match diskLoop env info.rehash dcs 0 (initLoopSt info blocks e0 s0 io0) with
  | .error b => .error b
  | .ok st =>
    match recoveryPhase env info.rehash pReads st with
    | .error b => .error b
    | .ok r => finishIndex env i info pWrites r.st r.fixedB r.recApplied

/-- block_is_enabled: an index is processed iff at least one disk has a
file at it and at least one disk has invalid parity at it. -/
def blockIsEnabled (blocks : List Slot0) : Bool :=
  blocks.any (fun ob => (ob.map (fun b => hasFile b.bstate)).getD false) &&
  blocks.any (fun ob => (ob.map (fun b => hasInvalidParity b.bstate)).getD false)

/-- Input of one block index to the sync pass: the block row, the
per-disk I/O oracle, the parity read/write oracles, the progress
callback result and the autosave parity_sync oracle. -/
structure IndexSlot where
  i : Nat
  blocks : List Slot0
  dcs : List DiskCase
  pReads : List PRes
  pWrites : List WRes
  progressAbort : Bool
  autosaveOk : Nat → Bool

/-- How the main loop of the sync pass ended. -/
inductive LoopEnd
  | normal
  | aborted
  | bailed
deriving DecidableEq

/-- State threaded through the main loop of the sync pass. -/
structure RunSt where
  infoarr : Nat → Info
  outBlocks : List (Nat × List Slot0)
  errors : Nat
  silents : Nat
  ios : Nat
  events : List Ev
  autosavedone : Nat
  autosavemissing : Nat
  countpos : Nat
  needWrite : Bool
  asserts : Bool

/-- autosavelimit = autosave / (diskmax * block_size). -/
def autosaveLimit (env : SyncEnv) : Nat := env.autosave / (env.diskmax * env.blockSize)

/-- A parity_sync sweep over the levels of `ls` (the autosave and
end-of-pass loops): emits a `psync` event per successful sync and stops
at the first failure. -/
def psyncLoop (ok : Nat → Bool) : List Nat → List Ev × Bool
  | [] => ([], true)
  | l :: ls =>
    if ok l then
      let r := psyncLoop ok ls
      (Ev.psync l :: r.1, r.2)
    else ([], false)

/-- Main loop of state_sync_process (lines 495-1107): per enabled index
run `processIndex`, record the new blocks and info, check the progress
callback, and fire the autosave checkpoint (parity_sync every level,
then state_write) when due. -/
def syncLoop (env : SyncEnv) : List IndexSlot → RunSt → RunSt × LoopEnd
  | [], st => (st, .normal)
  | s :: rest, st =>
    if blockIsEnabled s.blocks = false then
      syncLoop env rest { st with outBlocks := st.outBlocks ++ [(s.i, s.blocks)] }
    else
      let st := { st with autosavedone := st.autosavedone + 1,
                          autosavemissing := st.autosavemissing - 1 }
      let info := st.infoarr s.i
      match processIndex env s.i info s.blocks s.dcs s.pReads s.pWrites
            st.errors st.silents st.ios with
      | .error b =>
        ({ st with outBlocks := st.outBlocks ++ [(s.i, b.blocks)],
                   errors := b.errors, silents := b.silents, ios := b.ios,
                   events := st.events ++ b.events,
                   asserts := st.asserts && b.asserts }, .bailed)
      | .ok d =>
        let st := { st with
          outBlocks := st.outBlocks ++ [(s.i, d.blocks)],
          infoarr := fun k => if k = s.i then d.newInfo else st.infoarr k,
          errors := d.errors, silents := d.silents, ios := d.ios,
          events := st.events ++ d.events,
          needWrite := true, countpos := st.countpos + 1,
          asserts := st.asserts && d.asserts }
        if s.progressAbort then (st, .aborted)
        else
          if ((env.autosave != 0) && decide (autosaveLimit env ≤ st.autosavedone)
                && decide (autosaveLimit env ≤ st.autosavemissing))
             || ((env.forceAutosaveAt != 0) && (env.forceAutosaveAt == s.i)) then
            let r := psyncLoop s.autosaveOk (List.range env.level)
            if r.2 then
              syncLoop env rest
                { st with autosavedone := 0, events := st.events ++ r.1 ++ [Ev.swrite] }
            else
              ({ st with autosavedone := 0, events := st.events ++ r.1,
                         errors := st.errors + 1 }, .bailed)
          else syncLoop env rest st

/-- Result of the sync pass. -/
structure SyncResult where
  infoarr : Nat → Info
  outBlocks : List (Nat × List Slot0)
  errors : Nat
  silents : Nat
  ios : Nat
  events : List Ev
  bailed : Bool
  ret : Int
  needWrite : Bool
  asserts : Bool

/-- Return value of state_sync_process (lines 1183-1190): -1 on errors,
with the sense inverted under expect_recoverable. -/
def syncRet (env : SyncEnv) (total : Nat) : Int :=
  if env.expectRecoverable then (if total = 0 then -1 else 0)
  else (if total ≠ 0 then -1 else 0)

/-- Tail of state_sync_process after the main loop: on the non-bail
paths a final parity_sync of every level, then the handle-close sweep
(shared by all paths, errors counted via closeFails) and the
return-code computation. -/
def syncFinish (env : SyncEnv) (st : RunSt) (mode : LoopEnd) : SyncResult :=
  match mode with
  | .bailed =>
    let errs := st.errors + env.closeFails
    ⟨st.infoarr, st.outBlocks, errs, st.silents, st.ios, st.events, true,
     syncRet env (errs + st.silents + st.ios), st.needWrite, st.asserts⟩
  | _ =>
    let r := psyncLoop env.finalSyncOk (List.range env.level)
    if r.2 then
      let errs := st.errors + env.closeFails
      ⟨st.infoarr, st.outBlocks, errs, st.silents, st.ios, st.events ++ r.1, false,
       syncRet env (errs + st.silents + st.ios), st.needWrite, st.asserts⟩
    else
      let errs := st.errors + 1 + env.closeFails
      ⟨st.infoarr, st.outBlocks, errs, st.silents, st.ios, st.events ++ r.1, true,
       syncRet env (errs + st.silents + st.ios), st.needWrite, st.asserts⟩

/-- state_sync_process over the slots of `[blockstart, blockmax)`:
main loop, then the finishing stage. -/
def syncProcess (env : SyncEnv) (slots : List IndexSlot) (infoarr0 : Nat → Info) :
    SyncResult :=
  let countmax := (slots.filter (fun s => blockIsEnabled s.blocks)).length
  let st0 : RunSt := ⟨infoarr0, [], 0, 0, 0, [], 0, countmax, 0, false, true⟩
  let run := if env.progressBeginOk then syncLoop env slots st0 else (st0, LoopEnd.normal)
  syncFinish env run.1 run.2

/-- One work item of the hash pass: the block at index `i` of one disk
and its I/O oracle. -/
structure HashItem where
  i : Nat
  block : Slot0
  dc : DiskCase
  progressAbort : Bool

/-- One disk of the hash pass: its items and the oracle for the final
handle close of the disk. -/
structure HashDiskData where
  items : List HashItem
  closeEndNeeded : Bool
  closeEnd : CloseRes

/-- Input of the hash pass. -/
structure HashIn where
  disks : List (Option HashDiskData)
  infoarr : Nat → Info
  progressBeginOk : Bool
  bailCloseFails : Nat

/-- Counters of the hash pass. -/
structure HashSt where
  error : Nat
  ioError : Nat
  needWrite : Bool
  asserts : Bool

/-- Outcome of one hash-pass item. -/
inductive HashStepOut
  | cont (block : Slot0) (st : HashSt)
  | brk (block : Slot0) (st : HashSt)
  | bail (block : Slot0) (st : HashSt)

/-- One item of the hash pass (sync.c lines 96-277): skip blocks with no
file or with an updated hash, then close/open/stat/read; on success
store the computed hash and set the block state to REP; any EIO or
unknown error bails; the progress callback breaks the inner loop. -/
def hashStep (env : SyncEnv) (infoarr : Nat → Info) (it : HashItem) (st : HashSt) :
    HashStepOut :=
  match it.block with
  | none => .cont none st
  | some b =>
    if hasFile b.bstate = false then .cont (some b) st
    else if hasUpdatedHash b.bstate then .cont (some b) st
    else
      let st := { st with asserts := st.asserts && (b.bstate == BlockState.chg) }
      let rehash := (infoarr it.i).rehash
      if it.dc.closeNeeded && (it.dc.closeRes != CloseRes.ok) then
        if it.dc.closeRes = CloseRes.eio then
          .bail (some b) { st with ioError := st.ioError + 1 }
        else
          .bail (some b) { st with error := st.error + 1 }
      else
        match it.dc.openRes with
        | .eio => .bail (some b) { st with ioError := st.ioError + 1 }
        | .enoent => .cont (some b) { st with error := st.error + 1 }
        | .eacces => .cont (some b) { st with error := st.error + 1 }
        | .other => .bail (some b) { st with error := st.error + 1 }
        | .ok =>
          if it.dc.statMatches = false then .cont (some b) { st with error := st.error + 1 }
          else
            match it.dc.readRes with
            | .eio => .bail (some b) { st with ioError := st.ioError + 1 }
            | .other => .bail (some b) { st with error := st.error + 1 }
            | .ok data size =>
              let h := computedHash env rehash data size
              let st := { st with needWrite := true }
              if it.progressAbort then .brk (some ⟨BlockState.rep, h⟩) st
              else .cont (some ⟨BlockState.rep, h⟩) st

/-- Outcome of the inner item loop of one disk of the hash pass. -/
inductive HashLoopOut
  | done (blocks : List Slot0) (st : HashSt)
  | broke (blocks : List Slot0) (st : HashSt)
  | bailed (blocks : List Slot0) (st : HashSt)

/-- Inner loop of the hash pass over the items of one disk. -/
def hashItems (env : SyncEnv) (infoarr : Nat → Info) :
    List HashItem → List Slot0 → HashSt → HashLoopOut
  | [], acc, st => .done acc st
  | it :: rest, acc, st =>
    match hashStep env infoarr it st with
    | .cont ob st' => hashItems env infoarr rest (acc ++ [ob]) st'
    | .brk ob st' => .broke (acc ++ [ob] ++ rest.map (fun r => r.block)) st'
    | .bail ob st' => .bailed (acc ++ [ob] ++ rest.map (fun r => r.block)) st'

/-- Blocks of a hash-pass disk left untouched. -/
def hashRest (od : Option HashDiskData) : List Slot0 :=
  match od with
  | none => []
  | some d => d.items.map (fun r => r.block)

/-- Outer disk loop of the hash pass: returns the per-disk blocks, the
counters, the skip_sync flag and whether the pass bailed. -/
def hashDisks (env : SyncEnv) (infoarr : Nat → Info) :
    List (Option HashDiskData) → List (List Slot0) → HashSt → Bool →
    List (List Slot0) × HashSt × Bool × Bool
  | [], acc, st, skip => (acc, st, skip, false)
  | none :: rest, acc, st, skip => hashDisks env infoarr rest (acc ++ [[]]) st skip
  | some d :: rest, acc, st, skip =>
    match hashItems env infoarr d.items [] st with
    | .bailed bs st' => (acc ++ [bs] ++ rest.map hashRest, st', true, true)
    | .done bs st' =>
      if d.closeEndNeeded && (d.closeEnd != CloseRes.ok) then
        if d.closeEnd = CloseRes.eio then
          (acc ++ [bs] ++ rest.map hashRest, { st' with ioError := st'.ioError + 1 }, true, true)
        else
          (acc ++ [bs] ++ rest.map hashRest, { st' with error := st'.error + 1 }, true, true)
      else hashDisks env infoarr rest (acc ++ [bs]) st' skip
    | .broke bs st' =>
      if d.closeEndNeeded && (d.closeEnd != CloseRes.ok) then
        if d.closeEnd = CloseRes.eio then
          (acc ++ [bs] ++ rest.map hashRest, { st' with ioError := st'.ioError + 1 }, true, true)
        else
          (acc ++ [bs] ++ rest.map hashRest, { st' with error := st'.error + 1 }, true, true)
      else hashDisks env infoarr rest (acc ++ [bs]) st' true

/-- Result of the hash pass. -/
structure HashRes where
  disks : List (List Slot0)
  errors : Nat
  ios : Nat
  skipSync : Bool
  needWrite : Bool
  bailed : Bool
  ret : Int
  asserts : Bool

/-- state_hash_process: run the disk loop (unless the progress begin
callback refuses), count the bail-path close failures, set skip_sync on
bail, and return -1 iff any error or I/O error was counted. -/
def hashProcess (env : SyncEnv) (hin : HashIn) : HashRes :=
  if hin.progressBeginOk = false then
    ⟨hin.disks.map hashRest, 0, 0, false, false, false, 0, true⟩
  else
    let r := hashDisks env hin.infoarr hin.disks [] ⟨0, 0, false, true⟩ false
    let st := r.2.1
    let skip := r.2.2.1 || r.2.2.2
    let bailed := r.2.2.2
    let errs := if bailed then st.error + hin.bailCloseFails else st.error
    ⟨r.1, errs, st.ioError, skip, st.needWrite, bailed,
     (if errs + st.ioError ≠ 0 then -1 else 0), st.asserts⟩

/-- Input of the driver state_sync: configuration, the oracles of the
parity open/resize/close calls, and the inputs of the two passes. -/
structure DriverIn where
  env : SyncEnv
  prehash : Bool
  blockstart : Nat
  blockcount : Nat
  parityAllocSize : Nat
  usedParitymax : Nat
  parityCreateOk : Nat → Bool
  parityBlocksOf : Nat → Nat
  parityChsizeOk : Nat → Bool
  parityCloseOk : Nat → Bool
  forceFull : Bool
  needWrite0 : Bool
  hin : HashIn
  slots : List IndexSlot
  infoarr : Nat → Info

/-- Result of the driver; `fatal` models the exit(EXIT_FAILURE) paths. -/
structure DriverRes where
  fatal : Bool
  ret : Int
  events : List Ev
  unrecoverable : Nat
  ranSync : Bool
  skipSync : Bool
deriving Inhabited

/-- Smallest parity file size across the levels (sync.c lines 1253-1255). -/
def minParityBlocks (din : DriverIn) : Nat :=
  (List.range din.env.level).foldl
    (fun acc l => if l == 0 || din.parityBlocksOf l < acc then din.parityBlocksOf l else acc) 0

/-- state_sync (sync.c lines 1193-1345): clamp the range, open and
resize the parity files (fatal on failure or on undersized parity
without force_full), optionally run the hash pass followed by a
state_write checkpoint when the state is dirty, run the sync pass
unless skipped, close the parity files, and return -1 iff any
unrecoverable error was counted. -/
def fatalRes : DriverRes := ⟨true, 0, [], 0, false, false⟩

def stateSync (din : DriverIn) : DriverRes :=
  let blockmax0 := din.parityAllocSize
  if blockmax0 < din.blockstart then fatalRes
  else
    let blockmax := if din.blockcount ≠ 0 ∧ din.blockstart + din.blockcount < blockmax0 then
        din.blockstart + din.blockcount
      else blockmax0
    if (List.range din.env.level).any (fun l => din.parityCreateOk l = false) then fatalRes
    else if din.forceFull = false ∧ minParityBlocks din < din.usedParitymax then fatalRes
    else if (List.range din.env.level).any (fun l => din.parityChsizeOk l = false) then fatalRes
    else
      let pre := if din.prehash then
          let h := hashProcess din.env din.hin
          let u := if h.ret = -1 then 1 else 0
          let needW := din.needWrite0 || h.needWrite
          (u, h.skipSync, if needW then [Ev.swrite] else [])
        else (0, false, ([] : List Ev))
      let syn := if pre.2.1 = false ∧ din.blockstart < blockmax then
          let s := syncProcess din.env din.slots din.infoarr
          ((if s.ret = -1 then 1 else 0), s.events, true)
        else (0, ([] : List Ev), false)
      let u3 := ((List.range din.env.level).filter (fun l => din.parityCloseOk l = false)).length
      let u := pre.1 + syn.1 + u3
      ⟨false, (if u ≠ 0 then -1 else 0), pre.2.2 ++ syn.2.1, u, syn.2.2, pre.2.1⟩

/-- The event sequence of a full parity_sync sweep over all levels. -/
def psyncRun (level : Nat) : List Ev := (List.range level).map Ev.psync

/-- Whether the trace prefix ends with a full parity_sync sweep. -/
def endsWithSyncs (level : Nat) (pre : List Ev) : Bool := decide (psyncRun level <:+ pre)

/-- Whether a trace prefix contains no parity write. -/
def noPwAll (pre : List Ev) : Bool :=
  pre.all (fun e => match e with | .pwrite _ _ => false | _ => true)

/-- Scan of a trace checking that every state_write is immediately
preceded by a full parity_sync sweep; `pre` is the already-scanned
prefix. -/
def guardedGo (level : Nat) : List Ev → List Ev → Bool
  | _, [] => true
  | pre, e :: rest =>
    (if e = Ev.swrite then endsWithSyncs level pre else true) &&
    guardedGo level (pre ++ [e]) rest

/-- Every state_write of the trace is immediately preceded by a full
parity_sync sweep of all levels. -/
def guardedB (level : Nat) (evs : List Ev) : Bool := guardedGo level [] evs

/-- Weak guard: a full sweep right before, or no parity write at all so
far (nothing to flush). -/
def wguardOk (level : Nat) (pre : List Ev) : Bool := endsWithSyncs level pre || noPwAll pre

/-- Scan of a trace checking the weak guard at every state_write. -/
def safeGo (level : Nat) : List Ev → List Ev → Bool
  | _, [] => true
  | pre, e :: rest =>
    (if e = Ev.swrite then wguardOk level pre else true) &&
    safeGo level (pre ++ [e]) rest

/-- Every state_write of the trace is either immediately preceded by a
full parity_sync sweep or happens before any parity write. -/
def safeB (level : Nat) (evs : List Ev) : Bool := safeGo level [] evs

/-- True when the event is not a parity write of level `l`. -/
def notPwL (l : Nat) : Ev → Bool
  | .pwrite l' _ => l' != l
  | _ => true

/-- For level `l`: after the last successful parity_sync of `l` the
trace has no parity write of `l` (events after the last `psync l` are
the reversed take-while below). -/
def flushOkOne (l : Nat) (evs : List Ev) : Bool :=
  (evs.reverse.takeWhile (fun e => e != Ev.psync l)).all (notPwL l)

/-- Every level has been parity_sync'd after its last parity write. -/
def flushOk (level : Nat) (evs : List Ev) : Bool :=
  (List.range level).all (fun l => flushOkOne l evs)

/-! Basic lemmas about `nthD` and `upd`. -/

theorem length_upd {α : Type} (l : List α) (n : Nat) (a : α) : (upd l n a).length = l.length := by
  induction l generalizing n with
  | nil => simp [upd]
  | cons x xs ih =>
    cases n with
    | zero => simp [upd]
    | succ m => simp [upd, ih]

theorem nthD_oob {α : Type} (l : List α) (n : Nat) (d : α) (h : l.length ≤ n) :
    nthD l n d = d := by
  induction l generalizing n with
  | nil => simp [nthD]
  | cons x xs ih =>
    cases n with
    | zero => simp at h
    | succ m =>
      simp only [List.length_cons, Nat.succ_le_succ_iff] at h
      simpa [nthD] using ih m h

theorem nthD_ne_lt {α : Type} (l : List α) (n : Nat) (d : α) (h : nthD l n d ≠ d) :
    n < l.length := by
  by_contra hc
  exact h (nthD_oob l n d (Nat.le_of_not_lt hc))

theorem nthD_upd_eq {α : Type} (l : List α) (n : Nat) (a d : α) (h : n < l.length) :
    nthD (upd l n a) n d = a := by
  induction l generalizing n with
  | nil => simp at h
  | cons x xs ih =>
    cases n with
    | zero => simp [upd, nthD]
    | succ m =>
      simp only [List.length_cons, Nat.succ_lt_succ_iff] at h
      simpa [upd, nthD] using ih m h

theorem nthD_upd_ne {α : Type} (l : List α) (n m : Nat) (a d : α) (h : n ≠ m) :
    nthD (upd l n a) m d = nthD l m d := by
  induction l generalizing n m with
  | nil => simp [upd]
  | cons x xs ih =>
    cases n with
    | zero =>
      cases m with
      | zero => exact absurd rfl h
      | succ k => simp [upd, nthD]
    | succ n' =>
      cases m with
      | zero => simp [upd, nthD]
      | succ k => simpa [upd, nthD] using ih n' k (fun hh => h (by rw [hh]))

theorem upd_self {α : Type} (l : List α) (n : Nat) (a d : α) (hlt : n < l.length)
    (h : nthD l n d = a) : upd l n a = l := by
  induction l generalizing n with
  | nil => simp at hlt
  | cons x xs ih =>
    cases n with
    | zero => simp [nthD] at h; simp [upd, h]
    | succ m =>
      simp only [List.length_cons, Nat.succ_lt_succ_iff] at hlt
      simp only [nthD] at h
      simp [upd, ih m hlt h]

theorem nthD_map {α β : Type} (f : α → β) (l : List α) (n : Nat) (d : α) (d' : β)
    (hd : f d = d') : nthD (l.map f) n d' = f (nthD l n d) := by
  induction l generalizing n with
  | nil => simp [nthD, hd]
  | cons x xs ih =>
    cases n with
    | zero => simp [nthD]
    | succ m => simpa [nthD] using ih m

theorem nthD_append_left {α : Type} (l₁ l₂ : List α) (n : Nat) (d : α) (h : n < l₁.length) :
    nthD (l₁ ++ l₂) n d = nthD l₁ n d := by
  induction l₁ generalizing n with
  | nil => simp at h
  | cons x xs ih =>
    cases n with
    | zero => simp [nthD]
    | succ m =>
      simp only [List.length_cons, Nat.succ_lt_succ_iff] at h
      simpa [nthD] using ih m h


/-! Structural lemmas about the per-disk loop of the sync pass. -/

/-- A continuing disk step never changes the state of any block. -/
theorem diskStep_states_ok (env : SyncEnv) (rehash : Bool) (j : Nat) (dc : DiskCase)
    (st st' : LoopSt) (h : diskStep env rehash j dc st = .ok st') :
    ∀ k, stateOf (nthD st'.blocks k none) = stateOf (nthD st.blocks k none) := by
  unfold diskStep at h
  cases hb : nthD st.blocks j none with
  | none =>
    rw [hb] at h
    simp only [Except.ok.injEq] at h
    subst h
    intro k; rfl
  | some b =>
    rw [hb] at h
    have hlt : j < st.blocks.length := nthD_ne_lt st.blocks j none (by rw [hb]; simp)
    simp only at h
    repeat' split at h
    all_goals first
      | (simp only [Except.ok.injEq] at h; subst h; intro k; rfl)
      | (simp only [Except.ok.injEq] at h; subst h; intro k
         by_cases hk : k = j
         · subst hk
           rw [nthD_upd_eq _ _ _ _ hlt, hb]
           rfl
         · rw [nthD_upd_ne _ _ _ _ _ (fun hh => hk hh.symm)])
      | simp at h

/-- A bailing disk step leaves the block row unchanged. -/
theorem diskStep_states_err (env : SyncEnv) (rehash : Bool) (j : Nat) (dc : DiskCase)
    (st : LoopSt) (b : BailSt) (h : diskStep env rehash j dc st = .error b) :
    b.blocks = st.blocks := by
  unfold diskStep at h
  cases hb : nthD st.blocks j none with
  | none => rw [hb] at h; simp at h
  | some bl =>
    rw [hb] at h
    simp only at h
    repeat' split at h
    all_goals first
      | (simp only [Except.error.injEq] at h; subst h; rfl)
      | simp at h

/-- The per-disk loop never changes the state of any block (success case). -/
theorem diskLoop_states_ok (env : SyncEnv) (rehash : Bool) :
    ∀ (dcs : List DiskCase) (j : Nat) (st st' : LoopSt),
    diskLoop env rehash dcs j st = .ok st' →
    ∀ k, stateOf (nthD st'.blocks k none) = stateOf (nthD st.blocks k none) := by
  intro dcs
  induction dcs with
  | nil =>
    intro j st st' h k
    simp only [diskLoop, Except.ok.injEq] at h
    subst h; rfl
  | cons dc rest ih =>
    intro j st st' h k
    simp only [diskLoop] at h
    cases hs : diskStep env rehash j dc st with
    | error b => rw [hs] at h; simp at h
    | ok st1 =>
      rw [hs] at h
      exact (ih (j + 1) st1 st' h k).trans (diskStep_states_ok env rehash j dc st st1 hs k)

/-- The per-disk loop never changes the state of any block (bail case). -/
theorem diskLoop_states_err (env : SyncEnv) (rehash : Bool) :
    ∀ (dcs : List DiskCase) (j : Nat) (st : LoopSt) (b : BailSt),
    diskLoop env rehash dcs j st = .error b →
    ∀ k, stateOf (nthD b.blocks k none) = stateOf (nthD st.blocks k none) := by
  intro dcs
  induction dcs with
  | nil => intro j st b h k; simp [diskLoop] at h
  | cons dc rest ih =>
    intro j st b h k
    simp only [diskLoop] at h
    cases hs : diskStep env rehash j dc st with
    | error b' =>
      rw [hs] at h
      simp only [Except.error.injEq] at h
      subst h
      rw [diskStep_states_err env rehash j dc st b' hs]
    | ok st1 =>
      rw [hs] at h
      exact (ih (j + 1) st1 b h k).trans (diskStep_states_ok env rehash j dc st st1 hs k)

/-- The recovery attempt only touches the buffers, the counters and the
I/O flag; in particular the block row and the other flags are kept. -/
theorem recoveryPhase_frame (env : SyncEnv) (rehash : Bool) (pReads : List PRes)
    (st : LoopSt) (r : RecOut) (h : recoveryPhase env rehash pReads st = .ok r) :
    r.st.blocks = st.blocks ∧ r.st.errB = st.errB ∧ r.st.silentB = st.silentB ∧
    r.st.parityNeeds = st.parityNeeds ∧ r.st.asserts = st.asserts ∧
    r.st.failed = st.failed ∧ r.st.rehandle = st.rehandle ∧ r.st.silents = st.silents ∧
    (st.ioB = false ∨ r.st.ioB = st.ioB) := by
  unfold recoveryPhase recoveryCore at h
  simp only [] at h
  repeat' split at h
  all_goals try (simp only [Except.ok.injEq] at h; subst h;
                 exact ⟨rfl, rfl, rfl, rfl, rfl, rfl, rfl, rfl, Or.inr rfl⟩)
  all_goals try (simp only [Except.ok.injEq] at h; subst h;
                 exact ⟨rfl, rfl, rfl, rfl, rfl, rfl, rfl, rfl, Or.inl (by simp_all)⟩)
  all_goals simp at h

/-- A bail inside the recovery attempt leaves the block row unchanged. -/
theorem recoveryPhase_err (env : SyncEnv) (rehash : Bool) (pReads : List PRes)
    (st : LoopSt) (b : BailSt) (h : recoveryPhase env rehash pReads st = .error b) :
    b.blocks = st.blocks := by
  unfold recoveryPhase recoveryCore at h
  simp only [] at h
  repeat' split at h
  all_goals try (simp only [Except.error.injEq] at h; subst h; rfl)
  all_goals simp at h


/-- Flushing stashed rehash hashes never changes any block state. -/
theorem applyRehandle_states (bs : List Slot0) (rh : List (Option Nat)) :
    ∀ k, stateOf (nthD (applyRehandle bs rh) k none) = stateOf (nthD bs k none) := by
  induction bs generalizing rh with
  | nil => intro k; cases rh <;> rfl
  | cons ob bs ih =>
    intro k
    cases rh with
    | nil => rfl
    | cons oh rhs =>
      cases k with
      | zero =>
        cases ob with
        | none => cases oh <;> rfl
        | some b => cases oh <;> rfl
      | succ m => simpa [applyRehandle, nthD] using ih rhs m

/-- The commit transform acts pointwise. -/
theorem nthD_commitBlocks (bs : List Slot0) (k : Nat) :
    nthD (commitBlocks bs) k none = commitOne (nthD bs k none) :=
  nthD_map commitOne bs k none none rfl

/-- The rehash flush keeps the state structure of the committed row. -/
theorem commitAndFlush_states (c : Bool) (bs : List Slot0) (rh : List (Option Nat)) (k : Nat) :
    stateOf (nthD (commitAndFlush c bs rh) k none) = stateOf (nthD bs k none) := by
  unfold commitAndFlush
  by_cases hc : c = true
  · rw [if_pos hc]; exact applyRehandle_states bs rh k
  · rw [if_neg hc]

/-- Committing with no parity I/O error applies the commit transform. -/
theorem commitWhen_false (bs : List Slot0) : commitWhen false bs = commitBlocks bs := rfl

/-- The state sentinel is none exactly for the BLOCK_EMPTY sentinel. -/
theorem stateOf_eq_none (ob : Slot0) : stateOf ob = none ↔ ob = none := by
  cases ob <;> simp [stateOf]

/-- C1: at every enabled index reaching the commit step with no error,
no I/O error, and no unfixed silent error, and whose parity writes (if
any) saw no I/O error, every block in state CHG or REP is set to BLK
and every DELETED block is replaced by the BLOCK_EMPTY sentinel; at
every index skipped due to error, concurrent modification, or
unrecoverable silent corruption, no block state changes. -/
theorem sync_commit_block_transitions (env : SyncEnv) (i : Nat) (info : Info)
    (blocks : List Slot0) (dcs : List DiskCase) (pReads : List PRes) (pWrites : List WRes)
    (e0 s0 io0 : Nat) (d : DoneRec)
    (h : processIndex env i info blocks dcs pReads pWrites e0 s0 io0 = .ok d) :
    ((d.errB = false ∧ d.ioBPre = false ∧ (d.silentB = false ∨ d.fixedB = true) ∧
      d.ioBFinal = false) →
      ∀ k, ((stateOf (nthD blocks k none) = some BlockState.chg ∨
             stateOf (nthD blocks k none) = some BlockState.rep) →
              stateOf (nthD d.blocks k none) = some BlockState.blk) ∧
           (stateOf (nthD blocks k none) = some BlockState.deleted →
              nthD d.blocks k none = none)) ∧
    ((d.errB = true ∨ d.ioBPre = true ∨ (d.silentB = true ∧ d.fixedB = false)) →
      ∀ k, stateOf (nthD d.blocks k none) = stateOf (nthD blocks k none)) := by
  unfold processIndex at h
  cases hdl : diskLoop env info.rehash dcs 0 (initLoopSt info blocks e0 s0 io0) with
  | error b => rw [hdl] at h; simp at h
  | ok st =>
    rw [hdl] at h
    dsimp only at h
    cases hrp : recoveryPhase env info.rehash pReads st with
    | error b => rw [hrp] at h; simp at h
    | ok r =>
      rw [hrp] at h
      dsimp only at h
      have hst : ∀ k, stateOf (nthD st.blocks k none) = stateOf (nthD blocks k none) :=
        fun k => diskLoop_states_ok env info.rehash dcs 0 _ st hdl k
      have hfr := recoveryPhase_frame env info.rehash pReads st r hrp
      have hstr : ∀ k, stateOf (nthD r.st.blocks k none) = stateOf (nthD blocks k none) := by
        intro k; rw [hfr.1]; exact hst k
      unfold finishIndex at h
      split at h
      case isTrue hc =>
        simp only [] at h
        split at h
        case h_1 w heq => simp at h
        case h_2 w heq =>
          simp only [Except.ok.injEq] at h
          subst h
          constructor
          · intro hyp k
            have hfin : w.ioB = false := hyp.2.2.2
            have hkey : ∀ m, stateOf (nthD
                (commitAndFlush (r.st.parityNeeds && !r.st.silentB && !w.ioB && info.rehash)
                  (commitWhen w.ioB r.st.blocks) r.st.rehandle) m none)
                = stateOf (commitOne (nthD r.st.blocks m none)) := by
              intro m
              rw [commitAndFlush_states, hfin, commitWhen_false, nthD_commitBlocks]
            constructor
            · intro hcr
              have h2 : stateOf (nthD r.st.blocks k none) = some BlockState.chg ∨
                  stateOf (nthD r.st.blocks k none) = some BlockState.rep := by
                rcases hcr with hh | hh
                · exact Or.inl ((hstr k).trans hh)
                · exact Or.inr ((hstr k).trans hh)
              show stateOf (nthD
                (commitAndFlush (r.st.parityNeeds && !r.st.silentB && !w.ioB && info.rehash)
                  (commitWhen w.ioB r.st.blocks) r.st.rehandle) k none) = some BlockState.blk
              rw [hkey k]
              cases hnb : nthD r.st.blocks k none with
              | none => rw [hnb] at h2; rcases h2 with hh | hh <;> simp [stateOf] at hh
              | some b' =>
                rw [hnb] at h2
                have hne : b'.bstate ≠ BlockState.deleted := by
                  rcases h2 with hh | hh <;>
                    (simp [stateOf] at hh; rw [hh]; intro hcon; cases hcon)
                simp [commitOne, hne, stateOf]
            · intro hdel
              have h2 : stateOf (nthD r.st.blocks k none) = some BlockState.deleted :=
                (hstr k).trans hdel
              show nthD
                (commitAndFlush (r.st.parityNeeds && !r.st.silentB && !w.ioB && info.rehash)
                  (commitWhen w.ioB r.st.blocks) r.st.rehandle) k none = none
              rw [← stateOf_eq_none, hkey k]
              cases hnb : nthD r.st.blocks k none with
              | none => rfl
              | some b' =>
                rw [hnb] at h2
                simp [stateOf] at h2
                simp [commitOne, h2, stateOf]
          · intro hyp
            rcases hyp with hh | hh | ⟨hs, hf⟩
            · exact absurd hh (by rw [hc.1]; simp)
            · exact absurd hh (by rw [hc.2.1]; simp)
            · rcases hc.2.2 with h3 | h3
              · exact absurd hs (by rw [h3]; simp)
              · exact absurd hf (by rw [h3]; simp)
      case isFalse hc =>
        simp only [Except.ok.injEq] at h
        subst h
        constructor
        · intro hyp
          exact absurd ⟨hyp.1, hyp.2.1, hyp.2.2.1⟩ hc
        · intro _ k
          exact hstr k

/-- Concrete hash oracle used by the witnesses. -/
def cHash (d s : Nat) : Nat := d * 1000 + s + 1

/-- Concrete environment used by the witnesses. -/
def cEnv : SyncEnv :=
  ⟨2, 1, 4, 3, 0, 0, false, 77, cHash, fun d s => d + s + 500,
   fun bufs => [bufs.foldl (fun a b => a + b) 0],
   fun m _ => m.map (fun _ => 9),
   fun d _ => d, true, fun _ => true, 0⟩

/-- Blank info entry used by the witnesses. -/
def cInfo0 : Info := ⟨0, false, false⟩

/-- Clean per-disk oracle reading `data` with size `size`. -/
def dcClean (data size : Nat) : DiskCase := ⟨false, .ok, .ok, true, .ok data size⟩

/-- Witness block row for the commit-transition claim. -/
def cBlocksW1 : List Slot0 := [some ⟨BlockState.chg, 0⟩, some ⟨BlockState.deleted, 3⟩]

/-- Witness disk oracles for the commit-transition claim. -/
def cDcsW1 : List DiskCase := [dcClean 5 4, dcClean 6 4]

/-- Result of the witness run for the commit-transition claim. -/
def cD1 : DoneRec :=
  match processIndex cEnv 0 cInfo0 cBlocksW1 cDcsW1 [] [WRes.ok] 0 0 0 with
  | .ok d => d
  | .error _ => default

/-- Witness for C1: a concrete clean run promotes the CHG block to BLK
and erases the DELETED block. -/
theorem sync_commit_block_transitions_witness :
    processIndex cEnv 0 cInfo0 cBlocksW1 cDcsW1 [] [WRes.ok] 0 0 0 = .ok cD1 ∧
    (cD1.errB = false ∧ cD1.ioBPre = false ∧ (cD1.silentB = false ∨ cD1.fixedB = true) ∧
     cD1.ioBFinal = false) ∧
    stateOf (nthD cD1.blocks 0 none) = some BlockState.blk ∧
    nthD cD1.blocks 1 none = none := by
  refine ⟨rfl, ⟨by decide, by decide, Or.inl (by decide), by decide⟩, ?_, ?_⟩
  · exact ((sync_commit_block_transitions cEnv 0 cInfo0 cBlocksW1 cDcsW1 [] [WRes.ok]
      0 0 0 cD1 rfl).1 ⟨by decide, by decide, Or.inl (by decide), by decide⟩ 0).1
      (Or.inl (by decide))
  · exact ((sync_commit_block_transitions cEnv 0 cInfo0 cBlocksW1 cDcsW1 [] [WRes.ok]
      0 0 0 cD1 rfl).1 ⟨by decide, by decide, Or.inl (by decide), by decide⟩ 1).2
      (by decide)

/-- Case analysis of the end-of-index info update. -/
theorem newInfoOf_cases (env : SyncEnv) (info : Info) (pn s io : Bool) :
    ((s = true ∨ io = true) → newInfoOf env info pn s io = infoSetBad info) ∧
    (s = false → io = false →
      (pn = true ∧ newInfoOf env info pn s io = infoMake env.now) ∨
      (pn = false ∧ newInfoOf env info pn s io = info)) := by
  cases pn <;> cases s <;> cases io <;> simp [newInfoOf]

/-- C4: info[i] is set to info_set_bad (preserving its other fields) iff
a silent or I/O error was observed at the index, including when the
silent error was fixed in memory; and the bad flag is cleared only by a
clean rewrite, info_make(now,0,0) after the parity was updated with no
silent or I/O error. -/
theorem sync_bad_flag_info (env : SyncEnv) (i : Nat) (info : Info)
    (blocks : List Slot0) (dcs : List DiskCase) (pReads : List PRes) (pWrites : List WRes)
    (e0 s0 io0 : Nat) (d : DoneRec)
    (h : processIndex env i info blocks dcs pReads pWrites e0 s0 io0 = .ok d) :
    ((d.silentB = true ∨ d.ioBFinal = true) → d.newInfo = infoSetBad info) ∧
    ((infoSetBad info).time = info.time ∧ (infoSetBad info).bad = true ∧
     (infoSetBad info).rehash = info.rehash) ∧
    (info.bad = false → (d.newInfo.bad = true ↔ (d.silentB = true ∨ d.ioBFinal = true))) ∧
    (info.bad = true → d.newInfo.bad = false →
      d.newInfo = infoMake env.now ∧ d.parityNeeds = true ∧ d.errB = false ∧
      d.silentB = false ∧ d.ioBFinal = false) := by
  unfold processIndex at h
  cases hdl : diskLoop env info.rehash dcs 0 (initLoopSt info blocks e0 s0 io0) with
  | error b => rw [hdl] at h; simp at h
  | ok st =>
    rw [hdl] at h
    dsimp only at h
    cases hrp : recoveryPhase env info.rehash pReads st with
    | error b => rw [hrp] at h; simp at h
    | ok r =>
      rw [hrp] at h
      dsimp only at h
      unfold finishIndex at h
      split at h
      case isTrue hc =>
        simp only [] at h
        split at h
        case h_1 w heq => simp at h
        case h_2 w heq =>
          simp only [Except.ok.injEq] at h
          subst h
          refine ⟨?_, ⟨rfl, rfl, rfl⟩, ?_, ?_⟩
          · intro hyp
            exact (newInfoOf_cases env info r.st.parityNeeds r.st.silentB w.ioB).1 hyp
          · intro hbad
            constructor
            · intro hnew
              by_cases hs : r.st.silentB = true
              · exact Or.inl hs
              · by_cases hio : w.ioB = true
                · exact Or.inr hio
                · rcases (newInfoOf_cases env info r.st.parityNeeds r.st.silentB w.ioB).2
                    (by simpa using hs) (by simpa using hio) with ⟨_, he⟩ | ⟨_, he⟩
                  · rw [he] at hnew; simp [infoMake] at hnew
                  · rw [he] at hnew; rw [hbad] at hnew; simp at hnew
            · intro hyp
              rw [(newInfoOf_cases env info r.st.parityNeeds r.st.silentB w.ioB).1 hyp]
              rfl
          · intro hbad hnew
            by_cases hs : r.st.silentB = true
            · rw [(newInfoOf_cases env info r.st.parityNeeds r.st.silentB w.ioB).1
                (Or.inl hs)] at hnew
              simp [infoSetBad] at hnew
            · by_cases hio : w.ioB = true
              · rw [(newInfoOf_cases env info r.st.parityNeeds r.st.silentB w.ioB).1
                  (Or.inr hio)] at hnew
                simp [infoSetBad] at hnew
              · have hs' : r.st.silentB = false := by simpa using hs
                have hio' : w.ioB = false := by simpa using hio
                rcases (newInfoOf_cases env info r.st.parityNeeds r.st.silentB w.ioB).2
                  hs' hio' with ⟨hpn, he⟩ | ⟨_, he⟩
                · exact ⟨he, hpn, hc.1, hs', hio'⟩
                · rw [he] at hnew; rw [hbad] at hnew; simp at hnew
      case isFalse hc =>
        simp only [Except.ok.injEq] at h
        subst h
        refine ⟨?_, ⟨rfl, rfl, rfl⟩, ?_, ?_⟩
        · intro hyp
          exact (newInfoOf_cases env info false r.st.silentB r.st.ioB).1 hyp
        · intro hbad
          constructor
          · intro hnew
            by_cases hs : r.st.silentB = true
            · exact Or.inl hs
            · by_cases hio : r.st.ioB = true
              · exact Or.inr hio
              · rcases (newInfoOf_cases env info false r.st.silentB r.st.ioB).2
                  (by simpa using hs) (by simpa using hio) with ⟨hcon, _⟩ | ⟨_, he⟩
                · cases hcon
                · rw [he] at hnew; rw [hbad] at hnew; simp at hnew
          · intro hyp
            rw [(newInfoOf_cases env info false r.st.silentB r.st.ioB).1 hyp]
            rfl
        · intro hbad hnew
          by_cases hs : r.st.silentB = true
          · rw [(newInfoOf_cases env info false r.st.silentB r.st.ioB).1 (Or.inl hs)] at hnew
            simp [infoSetBad] at hnew
          · by_cases hio : r.st.ioB = true
            · rw [(newInfoOf_cases env info false r.st.silentB r.st.ioB).1 (Or.inr hio)] at hnew
              simp [infoSetBad] at hnew
            · rcases (newInfoOf_cases env info false r.st.silentB r.st.ioB).2
                (by simpa using hs) (by simpa using hio) with ⟨hcon, _⟩ | ⟨_, he⟩
              · cases hcon
              · rw [he] at hnew; rw [hbad] at hnew; simp at hnew

/-- Witness block row for the bad-flag claim: a BLK block whose content
no longer matches the stored hash. -/
def cBlocksW4 : List Slot0 := [some ⟨BlockState.blk, 999⟩]

/-- Witness disk oracles for the bad-flag claim. -/
def cDcsW4 : List DiskCase := [dcClean 5 4]

/-- Result of the witness run for the bad-flag claim. -/
def cD4 : DoneRec :=
  match processIndex cEnv 0 cInfo0 cBlocksW4 cDcsW4 [PRes.ok 3] [] 0 0 0 with
  | .ok d => d
  | .error _ => default

/-- Witness for C4: a silent error at a concrete index sets the bad
flag through info_set_bad, preserving the other fields. -/
theorem sync_bad_flag_info_witness :
    processIndex cEnv 0 cInfo0 cBlocksW4 cDcsW4 [PRes.ok 3] [] 0 0 0 = .ok cD4 ∧
    (cD4.silentB = true ∨ cD4.ioBFinal = true) ∧
    cD4.newInfo = infoSetBad cInfo0 ∧ cInfo0.bad = false ∧ cD4.newInfo.bad = true :=
  ⟨rfl, Or.inl (by decide),
   (sync_bad_flag_info cEnv 0 cInfo0 cBlocksW4 cDcsW4 [PRes.ok 3] [] 0 0 0 cD4 rfl).1
     (Or.inl (by decide)),
   by decide,
   ((sync_bad_flag_info cEnv 0 cInfo0 cBlocksW4 cDcsW4 [PRes.ok 3] [] 0 0 0 cD4 rfl).2.2.1
     (by decide)).mpr (Or.inl (by decide))⟩

/-- A slot of the C9 scenario: absent, or a CHG block with a real
stored hash whose read succeeds and hashes back to the stored value. -/
def chgCleanMatchB (env : SyncEnv) (rehash : Bool) (ob : Slot0) (dc : DiskCase) : Bool :=
  match ob with
  | none => true
  | some b =>
    (b.bstate == BlockState.chg) && (b.hash != 0) && (!dc.closeNeeded) &&
    (dc.openRes == OpenRes.ok) && dc.statMatches &&
    (match dc.readRes with
     | .ok data size => computedHash env rehash data size == b.hash
     | _ => false)

/-- A clean matching CHG (or absent) slot leaves the whole loop state of
the sync pass unchanged apart from the buffers and the rehash stash. -/
theorem diskStep_clean (env : SyncEnv) (rehash : Bool) (j : Nat) (dc : DiskCase)
    (st : LoopSt)
    (hcl : chgCleanMatchB env rehash (nthD st.blocks j none) dc = true)
    (hpn : st.parityNeeds = false) (he : st.errB = false) (hs : st.silentB = false)
    (hio : st.ioB = false) :
    ∃ st', diskStep env rehash j dc st = .ok st' ∧ st'.blocks = st.blocks ∧
      st'.parityNeeds = false ∧ st'.errB = false ∧ st'.silentB = false ∧
      st'.ioB = false := by
  unfold diskStep
  cases hb : nthD st.blocks j none with
  | none => exact ⟨_, rfl, rfl, hpn, he, hs, hio⟩
  | some b =>
    have hlt : j < st.blocks.length := nthD_ne_lt st.blocks j none (by rw [hb]; simp)
    cases hrr : dc.readRes with
    | eio => simp [chgCleanMatchB, hb, hrr] at hcl
    | other => simp [chgCleanMatchB, hb, hrr] at hcl
    | ok data size =>
      simp only [chgCleanMatchB, hb, hrr, Bool.and_eq_true, beq_iff_eq, bne_iff_ne,
        Bool.not_eq_true'] at hcl
      obtain ⟨⟨⟨⟨⟨hchg, hhash⟩, hcn⟩, hor⟩, hsm⟩, hcompute⟩ := hcl
      simp only [hchg, hcn, hor, hsm, hrr, hpn, hcompute, hasInvalidParity, hasFile,
        hasUpdatedHash, hashIsReal, Bool.false_and, Bool.and_false, Bool.and_true,
        Bool.false_or, Bool.or_false, bne_self_eq_false, if_true, if_false,
        Bool.false_eq_true, if_neg]
      simp only [hhash, bne_iff_ne, ne_eq, not_false_eq_true, if_true, if_pos]
      refine ⟨_, rfl, ?_, ?_, he, hs, hio⟩
      · show upd st.blocks j (some ⟨BlockState.chg, b.hash⟩) = st.blocks
        rw [← hchg]
        exact upd_self st.blocks j (some b) none hlt hb
      · rfl

/-- The disk loop over clean matching CHG slots succeeds with the block
row unchanged and `parity_needs_to_be_updated` still false. -/
theorem diskLoop_clean (env : SyncEnv) (rehash : Bool) :
    ∀ (dcs0 : List DiskCase) (j : Nat) (st : LoopSt),
    (∀ idx, idx < dcs0.length →
       chgCleanMatchB env rehash (nthD st.blocks (j + idx) none)
         (nthD dcs0 idx (dcClean 0 0)) = true) →
    st.parityNeeds = false → st.errB = false → st.silentB = false → st.ioB = false →
    ∃ st', diskLoop env rehash dcs0 j st = .ok st' ∧ st'.blocks = st.blocks ∧
      st'.parityNeeds = false ∧ st'.errB = false ∧ st'.silentB = false ∧
      st'.ioB = false := by
  intro dcs0
  induction dcs0 with
  | nil =>
    intro j st _ hpn he hs hio
    exact ⟨st, rfl, rfl, hpn, he, hs, hio⟩
  | cons dc rest ih =>
    intro j st hcl hpn he hs hio
    have h0 : chgCleanMatchB env rehash (nthD st.blocks j none) dc = true := by
      have := hcl 0 (by simp)
      simpa [nthD] using this
    obtain ⟨st1, hstep, hbk, hpn1, he1, hs1, hio1⟩ :=
      diskStep_clean env rehash j dc st h0 hpn he hs hio
    have hcl1 : ∀ idx, idx < rest.length →
        chgCleanMatchB env rehash (nthD st1.blocks (j + 1 + idx) none)
          (nthD rest idx (dcClean 0 0)) = true := by
      intro idx hidx
      rw [hbk]
      have := hcl (idx + 1) (by simpa using Nat.succ_lt_succ hidx)
      have harith : j + (idx + 1) = j + 1 + idx := by omega
      rw [harith] at this
      simpa [nthD] using this
    obtain ⟨st', hloop, hbk', hpn', he', hs', hio'⟩ := ih (j + 1) st1 hcl1 hpn1 he1 hs1 hio1
    refine ⟨st', ?_, hbk'.trans hbk, hpn', he', hs', hio'⟩
    simp only [diskLoop, hstep]
    exact hloop

/-- Commit transform of one slot by cases on the state. -/
theorem commitOne_stateOf (ob : Slot0) :
    ((stateOf ob = some BlockState.chg ∨ stateOf ob = some BlockState.rep) →
       stateOf (commitOne ob) = some BlockState.blk) ∧
    (stateOf ob = some BlockState.deleted → commitOne ob = none) := by
  constructor
  · intro hh
    cases ob with
    | none => rcases hh with hh | hh <;> simp [stateOf] at hh
    | some b =>
      rcases hh with hh | hh <;>
        (simp only [stateOf, Option.map_some', Option.some.injEq] at hh;
         simp [commitOne, hh, stateOf])
  · intro hh
    cases ob with
    | none => simp [stateOf] at hh
    | some b =>
      simp only [stateOf, Option.map_some', Option.some.injEq] at hh
      simp [commitOne, hh]

/-- C9: when the info entry is not bad and every disk at the index is
absent or holds a CHG block whose freshly computed hash equals its
stored non-zero hash, `parity_needs_to_be_updated` stays false, yet the
commit still promotes every CHG block to BLK and erases every DELETED
block, with no parity write issued and the info entry left untouched
(info_make is not called). -/
theorem sync_matching_chg_commit (env : SyncEnv) (i : Nat) (info : Info)
    (blocks : List Slot0) (dcs : List DiskCase) (pReads : List PRes) (pWrites : List WRes)
    (e0 s0 io0 : Nat)
    (hbad : info.bad = false)
    (hclean : (List.range dcs.length).all
       (fun idx => chgCleanMatchB env info.rehash (nthD blocks idx none)
          (nthD dcs idx (dcClean 0 0))) = true) :
    ∃ d, processIndex env i info blocks dcs pReads pWrites e0 s0 io0 = .ok d ∧
      d.parityNeeds = false ∧ d.events = [] ∧ d.newInfo = info ∧
      (∀ k, stateOf (nthD blocks k none) = some BlockState.chg →
            stateOf (nthD d.blocks k none) = some BlockState.blk) ∧
      (∀ k, stateOf (nthD blocks k none) = some BlockState.deleted →
            nthD d.blocks k none = none) := by
  have hclean' : ∀ idx, idx < dcs.length →
      chgCleanMatchB env info.rehash (nthD blocks idx none)
        (nthD dcs idx (dcClean 0 0)) = true := by
    intro idx hidx
    exact List.all_eq_true.mp hclean idx (List.mem_range.mpr hidx)
  obtain ⟨st', hloop, hbk, hpn', he', hs', hio'⟩ :=
    diskLoop_clean env info.rehash dcs 0 (initLoopSt info blocks e0 s0 io0)
      (by intro idx hidx; simpa using hclean' idx hidx) hbad rfl rfl rfl
  have hneg : ¬(st'.errB = false ∧ st'.ioB = false ∧ st'.silentB = true) := by
    intro hcon
    rw [hs'] at hcon
    exact absurd hcon.2.2 (by simp)
  have hrp : recoveryPhase env info.rehash pReads st' = .ok ⟨st', false, false⟩ := by
    unfold recoveryPhase
    rw [if_neg hneg]
  have hfi : finishIndex env i info pWrites st' false false =
      .ok ⟨commitBlocks st'.blocks, info, st'.errB, st'.silentB, false, st'.ioB, false,
           st'.parityNeeds, false, st'.errors, st'.silents, st'.ios, [], st'.buffers, [],
           st'.asserts⟩ := by
    unfold finishIndex
    rw [if_pos ⟨he', hio', Or.inl hs'⟩]
    simp only [hpn', hs', Bool.false_eq_true, reduceIte, Bool.false_and, Bool.or_false,
      commitAndFlush, commitWhen, newInfoOf, Bool.and_self, Bool.not_false, Bool.and_true,
      Bool.true_and, Bool.and_false, Bool.false_or]
  refine ⟨⟨commitBlocks st'.blocks, info, st'.errB, st'.silentB, false, st'.ioB, false,
      st'.parityNeeds, false, st'.errors, st'.silents, st'.ios, [], st'.buffers, [],
      st'.asserts⟩, ?_, hpn', rfl, rfl, ?_, ?_⟩
  · unfold processIndex
    rw [hloop]
    dsimp only
    rw [hrp]
    dsimp only
    exact hfi
  · intro k hk
    have h2 : stateOf (nthD st'.blocks k none) = some BlockState.chg := by
      rw [hbk]; exact hk
    show stateOf (nthD (commitBlocks st'.blocks) k none) = some BlockState.blk
    rw [nthD_commitBlocks]
    exact (commitOne_stateOf _).1 (Or.inl h2)
  · intro k hk
    have h2 : stateOf (nthD st'.blocks k none) = some BlockState.deleted := by
      rw [hbk]; exact hk
    show nthD (commitBlocks st'.blocks) k none = none
    rw [nthD_commitBlocks]
    exact (commitOne_stateOf _).2 h2

/-- Witness block row for the matching-CHG claim. -/
def cBlocksW9 : List Slot0 := [some ⟨BlockState.chg, 5005⟩]

/-- Witness disk oracles for the matching-CHG claim. -/
def cDcsW9 : List DiskCase := [dcClean 5 4]

/-- Witness for C9: a CHG block whose fresh hash equals its stored
non-zero hash is promoted with no parity write and no info change. -/
theorem sync_matching_chg_commit_witness :
    cInfo0.bad = false ∧
    (List.range cDcsW9.length).all
      (fun idx => chgCleanMatchB cEnv cInfo0.rehash (nthD cBlocksW9 idx none)
         (nthD cDcsW9 idx (dcClean 0 0))) = true ∧
    (∃ d, processIndex cEnv 0 cInfo0 cBlocksW9 cDcsW9 [] [] 0 0 0 = .ok d ∧
      d.parityNeeds = false ∧ d.events = [] ∧ d.newInfo = cInfo0 ∧
      (∀ k, stateOf (nthD cBlocksW9 k none) = some BlockState.chg →
            stateOf (nthD d.blocks k none) = some BlockState.blk) ∧
      (∀ k, stateOf (nthD cBlocksW9 k none) = some BlockState.deleted →
            nthD d.blocks k none = none)) :=
  ⟨by decide, by decide,
   sync_matching_chg_commit cEnv 0 cInfo0 cBlocksW9 cDcsW9 [] [] 0 0 0
     (by decide) (by decide)⟩

/-! Lemmas about the recovery-map setup and check loops. -/

/-- The setup loop reports something to recover only if a failed entry
really is a BLK block. -/
theorem recSetup_something (env : SyncEnv) (blocks : List Slot0) :
    ∀ (fs : List Failed) (acc : RecSetup),
    (recSetup env blocks fs acc).something = true →
    acc.something = true ∨ ∃ f ∈ fs, stateAt blocks f.index = BlockState.blk := by
  intro fs
  induction fs with
  | nil => intro acc h; exact Or.inl h
  | cons f rest ih =>
    intro acc h
    simp only [recSetup] at h
    have hcore : (acc.something || (stateAt blocks f.index == BlockState.blk)) = true →
        acc.something = true ∨ ∃ g ∈ f :: rest, stateAt blocks g.index = BlockState.blk := by
      intro hh
      rcases Bool.or_eq_true_iff.mp hh with hh | hh
      · exact Or.inl hh
      · exact Or.inr ⟨f, List.mem_cons_self f rest, beq_iff_eq.mp hh⟩
    split at h
    · rcases ih _ h with hh | ⟨g, hg, hsg⟩
      · exact hcore hh
      · exact Or.inr ⟨g, List.mem_cons_of_mem f hg, hsg⟩
    · split at h
      · exact hcore h
      · rcases ih _ h with hh | ⟨g, hg, hsg⟩
        · exact hcore hh
        · exact Or.inr ⟨g, List.mem_cons_of_mem f hg, hsg⟩

/-- The setup loop touches scratch slots only at failed indices. -/
theorem recSetup_scratch_frame (env : SyncEnv) (blocks : List Slot0) :
    ∀ (fs : List Failed) (acc : RecSetup) (k : Nat), k ∉ fs.map Failed.index →
    nthD (recSetup env blocks fs acc).scratch k 0 = nthD acc.scratch k 0 := by
  intro fs
  induction fs with
  | nil => intro acc k _; rfl
  | cons f rest ih =>
    intro acc k hk
    have hkf : k ≠ f.index := by
      intro hh; exact hk (by simp [hh])
    have hkr : k ∉ rest.map Failed.index := by
      intro hh; exact hk (by simp [hh])
    simp only [recSetup]
    split
    · rw [ih _ k hkr]
      exact nthD_upd_ne _ _ _ _ _ (fun hh => hkf hh.symm)
    · split
      · exact nthD_upd_ne _ _ _ _ _ (fun hh => hkf hh.symm)
      · rw [ih _ k hkr]
        exact nthD_upd_ne _ _ _ _ _ (fun hh => hkf hh.symm)

/-- The setup loop preserves the buffer and scratch lengths. -/
theorem recSetup_lengths (env : SyncEnv) (blocks : List Slot0) :
    ∀ (fs : List Failed) (acc : RecSetup),
    (recSetup env blocks fs acc).buffers.length = acc.buffers.length ∧
    (recSetup env blocks fs acc).scratch.length = acc.scratch.length := by
  intro fs
  induction fs with
  | nil => intro acc; exact ⟨rfl, rfl⟩
  | cons f rest ih =>
    intro acc
    simp only [recSetup]
    split
    · have := ih ({ acc with
        something := acc.something || (stateAt blocks f.index == BlockState.blk),
        scratch := upd acc.scratch f.index (nthD acc.buffers f.index 0),
        buffers := upd acc.buffers f.index 0,
        examined := acc.examined + 1 })
      simpa [length_upd] using this
    · split
      · simp [length_upd]
      · have := ih ({ acc with
          something := acc.something || (stateAt blocks f.index == BlockState.blk),
          scratch := upd acc.scratch f.index (nthD acc.buffers f.index 0),
          failedMap := acc.failedMap ++ [f.index],
          examined := acc.examined + 1 })
        simpa [length_upd] using this

/-- The setup loop increments examined at most once per entry. -/
theorem recSetup_examined_le (env : SyncEnv) (blocks : List Slot0) :
    ∀ (fs : List Failed) (acc : RecSetup),
    (recSetup env blocks fs acc).examined ≤ acc.examined + fs.length := by
  intro fs
  induction fs with
  | nil => intro acc; simp [recSetup]
  | cons f rest ih =>
    intro acc
    simp only [recSetup]
    split
    · have := ih ({ acc with
        something := acc.something || (stateAt blocks f.index == BlockState.blk),
        scratch := upd acc.scratch f.index (nthD acc.buffers f.index 0),
        buffers := upd acc.buffers f.index 0,
        examined := acc.examined + 1 })
      simp only [List.length_cons] at *
      omega
    · split
      · simp only [List.length_cons]
        omega
      · have := ih ({ acc with
          something := acc.something || (stateAt blocks f.index == BlockState.blk),
          scratch := upd acc.scratch f.index (nthD acc.buffers f.index 0),
          failedMap := acc.failedMap ++ [f.index],
          examined := acc.examined + 1 })
        simp only [List.length_cons] at *
        omega

/-- When the setup loop examines every entry and the failed indices are
distinct, each scratch slot holds the buffer content from before the
setup loop. -/
theorem recSetup_scratch (env : SyncEnv) (blocks : List Slot0) :
    ∀ (fs : List Failed) (acc : RecSetup),
    (fs.map Failed.index).Nodup →
    (recSetup env blocks fs acc).examined = acc.examined + fs.length →
    acc.scratch.length = acc.buffers.length →
    ∀ f ∈ fs, nthD (recSetup env blocks fs acc).scratch f.index 0 =
      nthD acc.buffers f.index 0 := by
  intro fs
  induction fs with
  | nil => intro acc _ _ _ f hf; cases hf
  | cons f0 rest ih =>
    intro acc hnd hex hlen f hf
    have hnd' : f0.index ∉ rest.map Failed.index ∧ (rest.map Failed.index).Nodup := by
      rw [List.map_cons, List.nodup_cons] at hnd
      exact hnd
    have hnd0 := hnd'.1
    have hndr := hnd'.2
    simp only [recSetup] at hex ⊢
    split at hex
    case isTrue hcz =>
      rw [if_pos hcz]
      set acc2 : RecSetup := { acc with
        something := acc.something || (stateAt blocks f0.index == BlockState.blk),
        scratch := upd acc.scratch f0.index (nthD acc.buffers f0.index 0),
        buffers := upd acc.buffers f0.index 0,
        examined := acc.examined + 1 } with hacc2
      have hex2 : (recSetup env blocks rest acc2).examined = acc2.examined + rest.length := by
        simp only [hacc2, List.length_cons] at hex ⊢
        omega
      have hlen2 : acc2.scratch.length = acc2.buffers.length := by
        simp [hacc2, length_upd, hlen]
      rcases List.mem_cons.mp hf with hf0 | hfr
      · subst hf0
        rw [recSetup_scratch_frame env blocks rest acc2 f.index hnd0]
        by_cases hin : f.index < acc.scratch.length
        · exact nthD_upd_eq _ _ _ _ hin
        · rw [nthD_oob _ _ _ (by simpa [hacc2, length_upd] using Nat.le_of_not_lt hin)]
          rw [nthD_oob acc.buffers _ _ (by rw [← hlen]; exact Nat.le_of_not_lt hin)]
      · have hne : f.index ≠ f0.index := by
          intro hh
          exact hnd0 (hh ▸ List.mem_map_of_mem Failed.index hfr)
        rw [ih acc2 hndr hex2 hlen2 f hfr]
        simp only [hacc2]
        exact nthD_upd_ne _ _ _ _ _ (fun hh => hne hh.symm)
    case isFalse hcz =>
      rw [if_neg hcz]
      split at hex
      case isTrue hbreak =>
        exact absurd hex (by simp only [List.length_cons]; omega)
      case isFalse hbreak =>
        rw [if_neg hbreak]
        set acc2 : RecSetup := { acc with
          something := acc.something || (stateAt blocks f0.index == BlockState.blk),
          scratch := upd acc.scratch f0.index (nthD acc.buffers f0.index 0),
          failedMap := acc.failedMap ++ [f0.index],
          examined := acc.examined + 1 } with hacc2
        have hex2 : (recSetup env blocks rest acc2).examined = acc2.examined + rest.length := by
          simp only [hacc2, List.length_cons] at hex ⊢
          omega
        have hlen2 : acc2.scratch.length = acc2.buffers.length := by
          simp [hacc2, length_upd, hlen]
        rcases List.mem_cons.mp hf with hf0 | hfr
        · subst hf0
          rw [recSetup_scratch_frame env blocks rest acc2 f.index hnd0]
          by_cases hin : f.index < acc.scratch.length
          · exact nthD_upd_eq _ _ _ _ hin
          · rw [nthD_oob _ _ _ (by simpa [hacc2, length_upd] using Nat.le_of_not_lt hin)]
            rw [nthD_oob acc.buffers _ _ (by rw [← hlen]; exact Nat.le_of_not_lt hin)]
        · have hne : f.index ≠ f0.index := by
            intro hh
            exact hnd0 (hh ▸ List.mem_map_of_mem Failed.index hfr)
          rw [ih acc2 hndr hex2 hlen2 f hfr]

/-- The check loop touches buffers only at failed indices. -/
theorem recCheck_frame (env : SyncEnv) (rehash : Bool) (blocks : List Slot0)
    (scratch : List Nat) :
    ∀ (fs : List Failed) (bufs : List Nat) (k : Nat), k ∉ fs.map Failed.index →
    nthD (recCheck env rehash blocks scratch fs bufs).1 k 0 = nthD bufs k 0 := by
  intro fs
  induction fs with
  | nil => intro bufs k _; rfl
  | cons f rest ih =>
    intro bufs k hk
    have hkf : k ≠ f.index := by
      intro hh; exact hk (by simp [hh])
    have hkr : k ∉ rest.map Failed.index := by
      intro hh; exact hk (by simp [hh])
    simp only [recCheck]
    split
    · split
      · rfl
      · split
        · rw [ih _ k hkr]
          exact nthD_upd_ne _ _ _ _ _ (fun hh => hkf hh.symm)
        · rw [ih _ k hkr]
    · rw [ih _ k hkr]
      exact nthD_upd_ne _ _ _ _ _ (fun hh => hkf hh.symm)

/-- When the check loop completes and the failed indices are distinct,
every failed non-BLK buffer ends as its scratch copy. -/
theorem recCheck_restore (env : SyncEnv) (rehash : Bool) (blocks : List Slot0)
    (scratch : List Nat) :
    ∀ (fs : List Failed) (bufs : List Nat),
    (fs.map Failed.index).Nodup →
    scratch.length = bufs.length →
    (recCheck env rehash blocks scratch fs bufs).2 = true →
    ∀ f ∈ fs, stateAt blocks f.index ≠ BlockState.blk →
      nthD (recCheck env rehash blocks scratch fs bufs).1 f.index 0 =
        nthD scratch f.index 0 := by
  intro fs
  induction fs with
  | nil => intro bufs _ _ _ f hf; cases hf
  | cons f0 rest ih =>
    intro bufs hnd hlen hdone f hf
    have hnd' : f0.index ∉ rest.map Failed.index ∧ (rest.map Failed.index).Nodup := by
      rw [List.map_cons, List.nodup_cons] at hnd
      exact hnd
    simp only [recCheck] at hdone ⊢
    split at hdone
    case isTrue hblk =>
      split at hdone
      case isTrue hmis => simp at hdone
      case isFalse hmis =>
        rw [if_pos hblk, if_neg hmis]
        rcases List.mem_cons.mp hf with hf0 | hfr
        · subst hf0
          intro hcon
          exact absurd (beq_iff_eq.mp hblk) hcon
        · intro hnb
          split at hdone
          case isTrue hsz =>
            rw [if_pos hsz]
            exact ih _ hnd'.2 (by rw [hlen, length_upd]) hdone f hfr hnb
          case isFalse hsz =>
            rw [if_neg hsz]
            exact ih _ hnd'.2 hlen hdone f hfr hnb
    case isFalse hblk =>
      rw [if_neg hblk]
      rcases List.mem_cons.mp hf with hf0 | hfr
      · subst hf0
        intro _
        rw [recCheck_frame env rehash blocks scratch rest _ f.index hnd'.1]
        by_cases hin : f.index < bufs.length
        · exact nthD_upd_eq _ _ _ _ hin
        · rw [nthD_oob _ _ _ (by simpa [length_upd] using Nat.le_of_not_lt hin)]
          rw [nthD_oob scratch _ _ (by rw [hlen]; exact Nat.le_of_not_lt hin)]
      · intro hnb
        exact ih _ hnd'.2 (by rw [hlen, length_upd]) hdone f hfr hnb

/-- Writing back recovered values preserves the buffer count. -/
theorem writeAt_length : ∀ (is vs bufs : List Nat), (writeAt is vs bufs).length = bufs.length := by
  intro is
  induction is with
  | nil => intro vs bufs; rfl
  | cons i is ih =>
    intro vs bufs
    cases vs with
    | nil => rfl
    | cons v vs => simp [writeAt, ih, length_upd]

/-- C3: in the recovery step, raid_rec is invoked only when at least
one failed entry is a BLK block; and when recovery completes, the data
buffer of every failed CHG, REP or DELETED entry is restored to its
pre-recovery content (the scratch copy), so the subsequent raid_gen
sees the on-disk, pre-sync content of those blocks. -/
theorem sync_recovery_restore (env : SyncEnv) (rehash : Bool) (pReads : List PRes)
    (st : LoopSt) (r : RecOut) (h : recoveryPhase env rehash pReads st = .ok r) :
    (r.recApplied = true → ∃ f ∈ st.failed, stateAt st.blocks f.index = BlockState.blk) ∧
    ((st.failed.map Failed.index).Nodup → r.fixedB = true →
      ∀ f ∈ st.failed, stateAt st.blocks f.index ≠ BlockState.blk →
        nthD r.st.buffers f.index 0 = nthD st.buffers f.index 0) := by
  unfold recoveryPhase at h
  by_cases hc : st.errB = false ∧ st.ioB = false ∧ st.silentB = true
  case neg =>
    rw [if_neg hc] at h
    simp only [Except.ok.injEq] at h
    subst h
    exact ⟨fun hra => absurd hra (by simp), fun _ hfx => absurd hfx (by simp)⟩
  case pos =>
    rw [if_pos hc] at h
    unfold recoveryCore at h
    by_cases hs : ((recSetup env st.blocks st.failed
        ⟨st.buffers, List.replicate st.buffers.length 0, [], false, 0⟩).something &&
        ((recSetup env st.blocks st.failed
          ⟨st.buffers, List.replicate st.buffers.length 0, [], false, 0⟩).examined ==
          st.failed.length)) = true
    case neg =>
      rw [if_neg hs] at h
      simp only [Except.ok.injEq] at h
      subst h
      exact ⟨fun hra => absurd hra (by simp), fun _ hfx => absurd hfx (by simp)⟩
    case pos =>
      rw [if_pos hs] at h
      cases hp : parityReads env pReads ⟨[], st.ioB, st.ios, st.errors⟩ with
      | error p => rw [hp] at h; simp at h
      | ok p =>
        rw [hp] at h
        dsimp only at h
        by_cases hio : p.ioB = false
        case neg =>
          rw [if_neg hio] at h
          simp only [Except.ok.injEq] at h
          subst h
          exact ⟨fun hra => absurd hra (by simp), fun _ hfx => absurd hfx (by simp)⟩
        case pos =>
          rw [if_pos hio] at h
          simp only [Except.ok.injEq] at h
          subst h
          constructor
          · intro _
            have hs' := hs
            rw [Bool.and_eq_true] at hs'
            rcases recSetup_something env st.blocks st.failed _ hs'.1 with hcon | hex
            · exact absurd hcon (by simp)
            · exact hex
          · intro hnd hfx f hf hnb
            have hs' := hs
            rw [Bool.and_eq_true] at hs'
            have hexam : (recSetup env st.blocks st.failed
                ⟨st.buffers, List.replicate st.buffers.length 0, [], false, 0⟩).examined =
                st.failed.length :=
              beq_iff_eq.mp hs'.2
            have hlens := recSetup_lengths env st.blocks st.failed
              ⟨st.buffers, List.replicate st.buffers.length 0, [], false, 0⟩
            have hscrlen : (recSetup env st.blocks st.failed
                ⟨st.buffers, List.replicate st.buffers.length 0, [], false, 0⟩).scratch.length =
                st.buffers.length := by
              rw [hlens.2]
              exact List.length_replicate st.buffers.length 0
            have hbuflen : (recSetup env st.blocks st.failed
                ⟨st.buffers, List.replicate st.buffers.length 0, [], false, 0⟩).buffers.length =
                st.buffers.length := hlens.1
            have hres := recCheck_restore env rehash st.blocks _ st.failed _ hnd
              (by rw [hscrlen, writeAt_length, hbuflen]) hfx f hf hnb
            rw [hres]
            exact recSetup_scratch env st.blocks st.failed
              ⟨st.buffers, List.replicate st.buffers.length 0, [], false, 0⟩ hnd
              (by rw [hexam]; simp) (by simp) f hf

/-- Two-level environment for the recovery witness. -/
def cEnvC3 : SyncEnv := { cEnv with level := 2 }

/-- Loop state entering the recovery witness: one silent BLK and one
DELETED block in the failed set. -/
def cStC3 : LoopSt :=
  ⟨[some ⟨BlockState.blk, 9005⟩, some ⟨BlockState.deleted, 5⟩], [10, 0],
   [⟨1, 4⟩, ⟨0, 4⟩], [none, none], true, false, true, false, 0, 1, 0, true⟩

/-- Result of the recovery witness run. -/
def cR3 : RecOut :=
  match recoveryPhase cEnvC3 false [PRes.ok 7, PRes.ok 8] cStC3 with
  | .ok r => r
  | .error _ => ⟨default, false, false⟩

/-- Witness for C3: a concrete recovery run invokes raid_rec with a BLK
present and restores the DELETED entry's buffer from scratch. -/
theorem sync_recovery_restore_witness :
    recoveryPhase cEnvC3 false [PRes.ok 7, PRes.ok 8] cStC3 = .ok cR3 ∧
    cR3.recApplied = true ∧
    (∃ f ∈ cStC3.failed, stateAt cStC3.blocks f.index = BlockState.blk) ∧
    (cStC3.failed.map Failed.index).Nodup ∧ cR3.fixedB = true ∧
    nthD cR3.st.buffers 1 0 = nthD cStC3.buffers 1 0 :=
  ⟨rfl, by decide,
   (sync_recovery_restore cEnvC3 false [PRes.ok 7, PRes.ok 8] cStC3 cR3 rfl).1 (by decide),
   by decide, by decide,
   (sync_recovery_restore cEnvC3 false [PRes.ok 7, PRes.ok 8] cStC3 cR3 rfl).2
     (by decide) (by decide) ⟨1, 4⟩ (by decide) (by decide)⟩

/-- Assert conjunct of a disk-loop outcome. -/
def assertsOfR : Except BailSt LoopSt → Bool
  | .ok st => st.asserts
  | .error b => b.asserts

/-- Assert conjunct of a hash-step outcome. -/
def assertsOfH : HashStepOut → Bool
  | .cont _ st => st.asserts
  | .brk _ st => st.asserts
  | .bail _ st => st.asserts

/-- Assert conjunct of a hash inner-loop outcome. -/
def assertsOfHL : HashLoopOut → Bool
  | .done _ st => st.asserts
  | .broke _ st => st.asserts
  | .bailed _ st => st.asserts

/-- The sync-pass per-disk step keeps its assert conjunct true. -/
theorem diskStep_asserts (env : SyncEnv) (rehash : Bool) (j : Nat) (dc : DiskCase)
    (st : LoopSt) (hA : st.asserts = true) :
    assertsOfR (diskStep env rehash j dc st) = true := by
  unfold diskStep
  cases hb : nthD st.blocks j none with
  | none => exact hA
  | some b =>
    simp only []
    repeat' split
    all_goals try exact hA
    all_goals (cases hbs : b.bstate <;> simp_all [hasFile, hasUpdatedHash, assertsOfR])

/-- The sync-pass disk loop keeps its assert conjunct true. -/
theorem diskLoop_asserts (env : SyncEnv) (rehash : Bool) :
    ∀ (dcs : List DiskCase) (j : Nat) (st : LoopSt), st.asserts = true →
    assertsOfR (diskLoop env rehash dcs j st) = true := by
  intro dcs
  induction dcs with
  | nil => intro j st hA; exact hA
  | cons dc rest ih =>
    intro j st hA
    have hstep := diskStep_asserts env rehash j dc st hA
    simp only [diskLoop]
    cases hs : diskStep env rehash j dc st with
    | error b => rw [hs] at hstep; exact hstep
    | ok st1 =>
      rw [hs] at hstep
      exact ih (j + 1) st1 hstep

/-- The hash-pass step keeps its assert conjunct true. -/
theorem hashStep_asserts (env : SyncEnv) (infoarr : Nat → Info) (it : HashItem)
    (st : HashSt) (hA : st.asserts = true) :
    assertsOfH (hashStep env infoarr it st) = true := by
  unfold hashStep
  cases hb : it.block with
  | none => exact hA
  | some b =>
    simp only []
    repeat' split
    all_goals try exact hA
    all_goals (cases hbs : b.bstate <;> simp_all [hasFile, hasUpdatedHash, assertsOfH])

/-- The hash-pass inner loop keeps its assert conjunct true. -/
theorem hashItems_asserts (env : SyncEnv) (infoarr : Nat → Info) :
    ∀ (its : List HashItem) (acc : List Slot0) (st : HashSt), st.asserts = true →
    assertsOfHL (hashItems env infoarr its acc st) = true := by
  intro its
  induction its with
  | nil => intro acc st hA; exact hA
  | cons it rest ih =>
    intro acc st hA
    have hstep := hashStep_asserts env infoarr it st hA
    simp only [hashItems]
    cases hs : hashStep env infoarr it st with
    | cont ob st' =>
      rw [hs] at hstep
      exact ih (acc ++ [ob]) st' hstep
    | brk ob st' => rw [hs] at hstep; exact hstep
    | bail ob st' => rw [hs] at hstep; exact hstep

/-- The hash-pass disk loop keeps its assert conjunct true. -/
theorem hashDisks_asserts (env : SyncEnv) (infoarr : Nat → Info) :
    ∀ (ds : List (Option HashDiskData)) (acc : List (List Slot0)) (st : HashSt)
      (skip : Bool), st.asserts = true →
    (hashDisks env infoarr ds acc st skip).2.1.asserts = true := by
  intro ds
  induction ds with
  | nil => intro acc st skip hA; exact hA
  | cons od rest ih =>
    intro acc st skip hA
    cases od with
    | none => exact ih (acc ++ [[]]) st skip hA
    | some d =>
      have hloop := hashItems_asserts env infoarr d.items [] st hA
      simp only [hashDisks]
      cases hl : hashItems env infoarr d.items [] st with
      | done bs st' =>
        rw [hl] at hloop
        simp only [assertsOfHL] at hloop
        simp only []
        split
        · split
          · exact hloop
          · exact hloop
        · exact ih (acc ++ [bs]) st' skip hloop
      | broke bs st' =>
        rw [hl] at hloop
        simp only [assertsOfHL] at hloop
        simp only []
        split
        · split
          · exact hloop
          · exact hloop
        · exact ih (acc ++ [bs]) st' true hloop
      | bailed bs st' =>
        rw [hl] at hloop
        simpa [assertsOfHL] using hloop

/-- C10 (spec-modelled helper predicates): a block with a file and no
updated hash is exactly CHG, hence the assert at the CHG-only point of
the hash pass and of the sync pass holds on every run. -/
theorem chg_only_asserts :
    (∀ s : BlockState, hasFile s = true → hasUpdatedHash s = false → s = BlockState.chg) ∧
    (∀ (env : SyncEnv) (rehash : Bool) (dcs : List DiskCase) (j : Nat) (st : LoopSt),
      st.asserts = true → assertsOfR (diskLoop env rehash dcs j st) = true) ∧
    (∀ (env : SyncEnv) (hin : HashIn), (hashProcess env hin).asserts = true) := by
  refine ⟨?_, ?_, ?_⟩
  · intro s h1 h2
    cases s <;> simp_all [hasFile, hasUpdatedHash]
  · intro env rehash dcs j st hA
    exact diskLoop_asserts env rehash dcs j st hA
  · intro env hin
    unfold hashProcess
    split
    · rfl
    · exact hashDisks_asserts env hin.infoarr hin.disks [] ⟨0, 0, false, true⟩ false rfl

/-- Witness for C10 at concrete inputs. -/
theorem chg_only_asserts_witness :
    (hasFile BlockState.chg = true ∧ hasUpdatedHash BlockState.chg = false ∧
     BlockState.chg = BlockState.chg) ∧
    ((initLoopSt cInfo0 cBlocksW1 0 0 0).asserts = true ∧
     assertsOfR (diskLoop cEnv false cDcsW1 0 (initLoopSt cInfo0 cBlocksW1 0 0 0)) = true) :=
  ⟨⟨by decide, by decide, chg_only_asserts.1 BlockState.chg (by decide) (by decide)⟩,
   ⟨by decide, chg_only_asserts.2.1 cEnv false cDcsW1 0
      (initLoopSt cInfo0 cBlocksW1 0 0 0) (by decide)⟩⟩

/-- Concrete hash-pass input: one disk with one CHG block read cleanly. -/
def cHashIn : HashIn :=
  ⟨[some ⟨[⟨0, some ⟨BlockState.chg, 0⟩, dcClean 7 3, false⟩], false, CloseRes.ok⟩],
   fun _ => cInfo0, true, 0⟩

/-- Counterexample to C2 as stated: the hash pass changes the state of
the CHG block it hashes — the block enters as CHG and leaves as REP. -/
theorem hash_pass_promotes_state_cex :
    nthD (hashRest (nthD cHashIn.disks 0 none)) 0 none = some ⟨BlockState.chg, 0⟩ ∧
    nthD (nthD (hashProcess cEnv cHashIn).disks 0 []) 0 none =
      some ⟨BlockState.rep, cHash 7 3⟩ ∧
    BlockState.rep ≠ BlockState.chg :=
  ⟨rfl, rfl, by decide⟩

/-- C2 (amended): for every CHG block processed without error by the
hash pass, the block's hash is filled with the computed digest and its
state is set to REP (the state is promoted, sync.c line 263). -/
theorem hash_pass_fills_and_promotes (env : SyncEnv) (infoarr : Nat → Info) (it : HashItem)
    (st : HashSt) (b : Block) (data size : Nat)
    (hb : it.block = some b) (hchg : b.bstate = BlockState.chg)
    (hcn : it.dc.closeNeeded = false) (hor : it.dc.openRes = OpenRes.ok)
    (hsm : it.dc.statMatches = true) (hrr : it.dc.readRes = ReadRes.ok data size)
    (hpa : it.progressAbort = false) :
    ∃ st', hashStep env infoarr it st =
      .cont (some ⟨BlockState.rep, computedHash env (infoarr it.i).rehash data size⟩) st' ∧
      st'.needWrite = true := by
  unfold hashStep
  rw [hb]
  simp only [hchg, hcn, hor, hsm, hrr, hpa, hasFile, hasUpdatedHash, Bool.false_and,
    Bool.false_eq_true, if_false, Bool.true_eq_false, reduceIte]
  exact ⟨_, rfl, rfl⟩

/-- Witness item for the amended C2. -/
def cItemW2 : HashItem := ⟨0, some ⟨BlockState.chg, 0⟩, dcClean 7 3, false⟩

/-- Witness for the amended C2 at a concrete item. -/
theorem hash_pass_fills_and_promotes_witness :
    cItemW2.block = some ⟨BlockState.chg, 0⟩ ∧
    (∃ st', hashStep cEnv (fun _ => cInfo0) cItemW2 ⟨0, 0, false, true⟩ =
      .cont (some ⟨BlockState.rep,
        computedHash cEnv ((fun _ => cInfo0) cItemW2.i).rehash 7 3⟩) st' ∧
      st'.needWrite = true) :=
  ⟨rfl, hash_pass_fills_and_promotes cEnv (fun _ => cInfo0) cItemW2 ⟨0, 0, false, true⟩
    ⟨BlockState.chg, 0⟩ 7 3 rfl rfl rfl rfl rfl rfl rfl⟩

/-- C8: a data-disk read EIO in the sync pass is counted and marks the
block while the running count is below io_error_limit, and processing
continues with the next disk; once the count reaches the limit the pass
bails. In the hash pass any read EIO bails immediately (no limit), and
a bailed hash pass sets skip_sync, which forbids the sync pass. -/
theorem read_eio_policy :
    (∀ (env : SyncEnv) (rehash : Bool) (j : Nat) (dc : DiskCase) (st : LoopSt) (b : Block),
      nthD st.blocks j none = some b → hasFile b.bstate = true →
      dc.closeNeeded = false → dc.openRes = OpenRes.ok → dc.statMatches = true →
      dc.readRes = ReadRes.eio →
      (st.ios < env.ioErrorLimit →
        ∃ st', diskStep env rehash j dc st = .ok st' ∧ st'.ios = st.ios + 1 ∧
          st'.ioB = true ∧ st'.blocks = st.blocks ∧ st'.errors = st.errors ∧
          st'.silents = st.silents) ∧
      (env.ioErrorLimit ≤ st.ios →
        ∃ bl, diskStep env rehash j dc st = .error bl ∧ bl.ios = st.ios + 1 ∧
          bl.errors = st.errors)) ∧
    (∀ (env : SyncEnv) (infoarr : Nat → Info) (it : HashItem) (st : HashSt) (b : Block),
      it.block = some b → b.bstate = BlockState.chg →
      it.dc.closeNeeded = false → it.dc.openRes = OpenRes.ok → it.dc.statMatches = true →
      it.dc.readRes = ReadRes.eio →
      ∃ st', hashStep env infoarr it st = .bail (some b) st' ∧
        st'.ioError = st.ioError + 1) ∧
    (∀ (env : SyncEnv) (hin : HashIn), (hashProcess env hin).bailed = true →
      (hashProcess env hin).skipSync = true) ∧
    (∀ din : DriverIn, (stateSync din).fatal = false → (stateSync din).skipSync = true →
      (stateSync din).ranSync = false) := by
  refine ⟨?_, ?_, ?_, ?_⟩
  · intro env rehash j dc st b hb hf hcn hor hsm hrr
    unfold diskStep
    rw [hb]
    simp only [hf, hcn, hor, hsm, hrr, Bool.false_and, Bool.true_eq_false, if_false,
      Bool.false_eq_true, reduceIte]
    constructor
    · intro hlt
      rw [if_neg (Nat.not_le.mpr hlt)]
      exact ⟨_, rfl, rfl, rfl, rfl, rfl, rfl⟩
    · intro hge
      rw [if_pos hge]
      exact ⟨_, rfl, rfl, rfl⟩
  · intro env infoarr it st b hb hchg hcn hor hsm hrr
    unfold hashStep
    rw [hb]
    simp only [hchg, hcn, hor, hsm, hrr, hasFile, hasUpdatedHash, Bool.false_and,
      Bool.true_eq_false, if_false, Bool.false_eq_true, reduceIte]
    exact ⟨_, rfl, rfl⟩
  · intro env hin hbl
    unfold hashProcess at hbl ⊢
    by_cases hpb : hin.progressBeginOk = false
    · rw [if_pos hpb] at hbl
      simp at hbl
    · rw [if_neg hpb] at hbl ⊢
      dsimp only at hbl ⊢
      rw [hbl, Bool.or_true]
  · intro din hft hsk
    unfold stateSync at hft hsk ⊢
    by_cases hc1 : din.parityAllocSize < din.blockstart
    · rw [if_pos hc1] at hft
      simp [fatalRes] at hft
    · rw [if_neg hc1] at hft hsk ⊢
      by_cases hc2 : (List.range din.env.level).any (fun l => din.parityCreateOk l = false) = true
      · rw [if_pos hc2] at hft
        simp [fatalRes] at hft
      · rw [if_neg hc2] at hft hsk ⊢
        by_cases hc3 : din.forceFull = false ∧ minParityBlocks din < din.usedParitymax
        · rw [if_pos hc3] at hft
          simp [fatalRes] at hft
        · rw [if_neg hc3] at hft hsk ⊢
          by_cases hc4 : (List.range din.env.level).any
              (fun l => din.parityChsizeOk l = false) = true
          · rw [if_pos hc4] at hft
            simp [fatalRes] at hft
          · rw [if_neg hc4] at hft hsk ⊢
            dsimp only at hsk ⊢
            by_cases hpre : din.prehash = true
            · rw [if_pos hpre] at hsk ⊢
              dsimp only at hsk ⊢
              rw [if_neg]
              intro hcon
              rw [hsk] at hcon
              exact absurd hcon.1 (by simp)
            · rw [if_neg hpre] at hsk ⊢
              dsimp only at hsk ⊢
              exact absurd hsk (by simp)

/-- A per-disk oracle whose read fails with EIO. -/
def dcEio : DiskCase := ⟨false, .ok, .ok, true, .eio⟩

/-- Loop state for the read-EIO witness. -/
def cStC8 : LoopSt := initLoopSt cInfo0 [some ⟨BlockState.blk, 5⟩] 0 0 0

/-- Hash item whose read fails with EIO. -/
def cItemW8 : HashItem := ⟨0, some ⟨BlockState.chg, 0⟩, dcEio, false⟩

/-- Hash-pass input that bails on a read EIO. -/
def cHashInBail : HashIn :=
  ⟨[some ⟨[cItemW8], false, CloseRes.ok⟩], fun _ => cInfo0, true, 0⟩

/-- Driver input whose prehash pass bails, skipping the sync pass. -/
def cDinSkip : DriverIn :=
  ⟨cEnv, true, 0, 0, 1, 1, fun _ => true, fun _ => 1, fun _ => true, fun _ => true,
   false, false, cHashInBail, [], fun _ => cInfo0⟩

/-- Witness for C8 at concrete inputs. -/
theorem read_eio_policy_witness :
    (∃ st', diskStep cEnv false 0 dcEio cStC8 = .ok st' ∧ st'.ios = cStC8.ios + 1 ∧
      st'.ioB = true ∧ st'.blocks = cStC8.blocks ∧ st'.errors = cStC8.errors ∧
      st'.silents = cStC8.silents) ∧
    (∃ st', hashStep cEnv (fun _ => cInfo0) cItemW8 ⟨0, 0, false, true⟩ =
      .bail (some ⟨BlockState.chg, 0⟩) st' ∧ st'.ioError = 0 + 1) ∧
    (hashProcess cEnv cHashInBail).bailed = true ∧
    (hashProcess cEnv cHashInBail).skipSync = true ∧
    (stateSync cDinSkip).fatal = false ∧ (stateSync cDinSkip).skipSync = true ∧
    (stateSync cDinSkip).ranSync = false :=
  ⟨(read_eio_policy.1 cEnv false 0 dcEio cStC8 ⟨BlockState.blk, 5⟩ rfl (by decide)
      rfl rfl rfl rfl).1 (by decide),
   read_eio_policy.2.1 cEnv (fun _ => cInfo0) cItemW8 ⟨0, 0, false, true⟩
     ⟨BlockState.chg, 0⟩ rfl rfl rfl rfl rfl rfl,
   by decide,
   read_eio_policy.2.2.1 cEnv cHashInBail (by decide),
   by decide,
   by decide,
   read_eio_policy.2.2.2 cDinSkip (by decide) (by decide)⟩

/-- The sync pass's return value is computed by syncRet from its final
error counters on every path. -/
theorem syncProcess_ret (env : SyncEnv) (slots : List IndexSlot) (ia : Nat → Info) :
    (syncProcess env slots ia).ret =
      syncRet env ((syncProcess env slots ia).errors + (syncProcess env slots ia).silents +
        (syncProcess env slots ia).ios) := by
  unfold syncProcess syncFinish
  simp only []
  split
  · rfl
  · split
    · rfl
    · rfl

/-- Case analysis of the return-code computation. -/
theorem syncRet_cases (env : SyncEnv) (t : Nat) :
    (syncRet env t = 0 ∨ syncRet env t = -1) ∧
    (env.expectRecoverable = true → (syncRet env t = -1 ↔ t = 0)) ∧
    (env.expectRecoverable = false → (syncRet env t = -1 ↔ t ≠ 0)) := by
  unfold syncRet
  cases henv : env.expectRecoverable <;> by_cases ht : t = 0 <;> simp [ht]

/-- Outside the fatal paths, the driver returns -1 exactly for a
nonzero unrecoverable count. -/
theorem stateSync_ret (din : DriverIn) (hft : (stateSync din).fatal = false) :
    (stateSync din).ret =
      (if (stateSync din).unrecoverable ≠ 0 then (-1 : Int) else 0) := by
  unfold stateSync at hft ⊢
  by_cases hc1 : din.parityAllocSize < din.blockstart
  · rw [if_pos hc1] at hft
    simp [fatalRes] at hft
  · rw [if_neg hc1] at hft ⊢
    by_cases hc2 : (List.range din.env.level).any (fun l => din.parityCreateOk l = false) = true
    · rw [if_pos hc2] at hft
      simp [fatalRes] at hft
    · rw [if_neg hc2] at hft ⊢
      by_cases hc3 : din.forceFull = false ∧ minParityBlocks din < din.usedParitymax
      · rw [if_pos hc3] at hft
        simp [fatalRes] at hft
      · rw [if_neg hc3] at hft ⊢
        by_cases hc4 : (List.range din.env.level).any
            (fun l => din.parityChsizeOk l = false) = true
        · rw [if_pos hc4] at hft
          simp [fatalRes] at hft
        · rw [if_neg hc4] at hft ⊢

/-- C7: state_sync_process returns 0 or -1, with -1 exactly on a
nonzero error total — the sense being inverted under
expect_recoverable (then -1 exactly when no error occurred); and
state_sync returns 0 on success and -1 iff an unrecoverable error was
counted. -/
theorem sync_return_contract :
    (∀ (env : SyncEnv) (slots : List IndexSlot) (ia : Nat → Info),
      ((syncProcess env slots ia).ret = 0 ∨ (syncProcess env slots ia).ret = -1) ∧
      (env.expectRecoverable = true →
        ((syncProcess env slots ia).ret = -1 ↔
          (syncProcess env slots ia).errors + (syncProcess env slots ia).silents +
            (syncProcess env slots ia).ios = 0)) ∧
      (env.expectRecoverable = false →
        ((syncProcess env slots ia).ret = -1 ↔
          (syncProcess env slots ia).errors + (syncProcess env slots ia).silents +
            (syncProcess env slots ia).ios ≠ 0))) ∧
    (∀ din : DriverIn, (stateSync din).fatal = false →
      ((stateSync din).ret = 0 ∨ (stateSync din).ret = -1) ∧
      ((stateSync din).ret = -1 ↔ (stateSync din).unrecoverable ≠ 0)) := by
  constructor
  · intro env slots ia
    rw [syncProcess_ret env slots ia]
    exact syncRet_cases env _
  · intro din hft
    rw [stateSync_ret din hft]
    by_cases hu : (stateSync din).unrecoverable = 0
    · simp [hu]
    · simp [hu]

/-- Constant blank info array for the witnesses. -/
def cInfoArr0 : Nat → Info := fun _ => cInfo0

/-- Witness for C7 at concrete inputs. -/
theorem sync_return_contract_witness :
    ((syncProcess cEnv [] cInfoArr0).ret = 0 ∨ (syncProcess cEnv [] cInfoArr0).ret = -1) ∧
    cEnv.expectRecoverable = false ∧
    ((syncProcess cEnv [] cInfoArr0).ret = -1 ↔
      (syncProcess cEnv [] cInfoArr0).errors + (syncProcess cEnv [] cInfoArr0).silents +
        (syncProcess cEnv [] cInfoArr0).ios ≠ 0) ∧
    (stateSync cDinSkip).fatal = false ∧
    ((stateSync cDinSkip).ret = -1 ↔ (stateSync cDinSkip).unrecoverable ≠ 0) :=
  ⟨(sync_return_contract.1 cEnv [] cInfoArr0).1,
   by decide,
   (sync_return_contract.1 cEnv [] cInfoArr0).2.2 (by decide),
   by decide,
   (sync_return_contract.2 cDinSkip (by decide)).2⟩

/-! Lemmas about the parity_sync sweeps and the flush predicate. -/

/-- A completed sweep emits exactly one psync per level. -/
theorem psyncLoop_complete (ok : Nat → Bool) :
    ∀ ls, (psyncLoop ok ls).2 = true → (psyncLoop ok ls).1 = ls.map Ev.psync := by
  intro ls
  induction ls with
  | nil => intro _; rfl
  | cons l rest ih =>
    intro h
    simp only [psyncLoop] at h ⊢
    split at h
    case isTrue hok =>
      rw [if_pos hok]
      simp only [List.map_cons, List.cons.injEq]
      exact ⟨trivial, ih h⟩
    case isFalse hok => simp at h

/-- A sweep emits only psync events. -/
theorem psyncLoop_only_psync (ok : Nat → Bool) :
    ∀ ls, ∀ e ∈ (psyncLoop ok ls).1, ∃ l, e = Ev.psync l := by
  intro ls
  induction ls with
  | nil => intro e he; cases he
  | cons l rest ih =>
    intro e he
    simp only [psyncLoop] at he
    split at he
    · rcases List.mem_cons.mp he with hh | hh
      · exact ⟨l, hh⟩
      · exact ih e hh
    · cases he

/-- Take-while stops inside a prefix containing a failing element. -/
theorem takeWhile_append_left {α : Type} (p : α → Bool) :
    ∀ (A B : List α), (∃ a ∈ A, p a = false) →
    (A ++ B).takeWhile p = A.takeWhile p := by
  intro A
  induction A with
  | nil => intro B h; rcases h with ⟨a, ha, _⟩; cases ha
  | cons x xs ih =>
    intro B h
    by_cases hx : p x = true
    · simp only [List.cons_append, List.takeWhile_cons, hx]
      rcases h with ⟨a, ha, hpa⟩
      rcases List.mem_cons.mp ha with rfl | ha'
      · rw [hx] at hpa; cases hpa
      · rw [ih B ⟨a, ha', hpa⟩]
    · have hx' : p x = false := by simpa using hx
      simp only [List.cons_append, List.takeWhile_cons, hx']
      simp

/-- Elements of a take-while prefix belong to the list. -/
theorem takeWhile_mem {α : Type} (p : α → Bool) :
    ∀ (l : List α) (x : α), x ∈ l.takeWhile p → x ∈ l := by
  intro l
  induction l with
  | nil => intro x hx; cases hx
  | cons y ys ih =>
    intro x hx
    by_cases hy : p y = true
    · rw [List.takeWhile_cons, if_pos hy] at hx
      rcases List.mem_cons.mp hx with rfl | hx'
      · exact List.mem_cons_self x ys
      · exact List.mem_cons_of_mem y (ih x hx')
    · rw [List.takeWhile_cons, if_neg hy] at hx
      cases hx

/-- A trace ending with a full parity_sync sweep satisfies the flush
property for every level. -/
theorem flushOk_append_syncs (level : Nat) (es : List Ev) :
    flushOk level (es ++ psyncRun level) = true := by
  unfold flushOk
  rw [List.all_eq_true]
  intro l hl
  rw [List.mem_range] at hl
  unfold flushOkOne
  rw [List.reverse_append]
  rw [takeWhile_append_left _ _ _
    ⟨Ev.psync l, by
      rw [List.mem_reverse]
      exact List.mem_map_of_mem Ev.psync (List.mem_range.mpr hl), by simp⟩]
  rw [List.all_eq_true]
  intro e he
  have hmem := takeWhile_mem _ _ e he
  rw [List.mem_reverse] at hmem
  unfold psyncRun at hmem
  obtain ⟨l', _, rfl⟩ := List.mem_map.mp hmem
  rfl

/-- A non-bail finish appends a full sweep to the trace. -/
theorem syncFinish_events (env : SyncEnv) (st : RunSt) (mode : LoopEnd)
    (h : (syncFinish env st mode).bailed = false) :
    (syncFinish env st mode).events = st.events ++ psyncRun env.level := by
  unfold syncFinish at h ⊢
  cases mode with
  | bailed => simp at h
  | normal =>
    simp only [] at h ⊢
    split at h
    case isTrue hr =>
      rw [if_pos hr]
      simp only [List.append_cancel_left_eq]
      exact psyncLoop_complete env.finalSyncOk (List.range env.level) hr
    case isFalse hr => simp at h
  | aborted =>
    simp only [] at h ⊢
    split at h
    case isTrue hr =>
      rw [if_pos hr]
      simp only [List.append_cancel_left_eq]
      exact psyncLoop_complete env.finalSyncOk (List.range env.level) hr
    case isFalse hr => simp at h

/-- C5 (amended): whenever the sync pass returns through the normal
termination path (end of range or progress abort, with every final
parity_sync succeeding — i.e. it did not bail), every parity level has
been parity_sync'd after the last parity write; bail paths may return
without the final sweep. -/
theorem sync_flush_after_writes (env : SyncEnv) (slots : List IndexSlot) (ia : Nat → Info)
    (h : (syncProcess env slots ia).bailed = false) :
    flushOk env.level (syncProcess env slots ia).events = true := by
  unfold syncProcess at h ⊢
  rw [syncFinish_events env _ _ h]
  exact flushOk_append_syncs env.level _

/-- Environment with io_error_limit 0 for the bail counterexample. -/
def cEnvC5 : SyncEnv := { cEnv with ioErrorLimit := 0 }

/-- Two slots: the first writes parity, the second bails on a read EIO. -/
def cSlotsC5 : List IndexSlot :=
  [⟨0, [some ⟨BlockState.chg, 0⟩], [dcClean 5 4], [], [WRes.ok], false, fun _ => true⟩,
   ⟨1, [some ⟨BlockState.chg, 0⟩], [dcEio], [], [], false, fun _ => true⟩]

/-- Counterexample to C5 as stated: a run that writes parity at index 0
and then bails returns with no parity_sync after the last parity write
of level 0. -/
theorem sync_flush_after_writes_cex :
    (syncProcess cEnvC5 cSlotsC5 cInfoArr0).events = [Ev.pwrite 0 0] ∧
    (syncProcess cEnvC5 cSlotsC5 cInfoArr0).bailed = true ∧
    flushOk cEnvC5.level (syncProcess cEnvC5 cSlotsC5 cInfoArr0).events = false :=
  ⟨rfl, rfl, by decide⟩

/-- Witness for the amended C5: a non-bailing run ends flushed. -/
theorem sync_flush_after_writes_witness :
    (syncProcess cEnv [] cInfoArr0).bailed = false ∧
    flushOk cEnv.level (syncProcess cEnv [] cInfoArr0).events = true :=
  ⟨by decide, sync_flush_after_writes cEnv [] cInfoArr0 (by decide)⟩

/-! Lemmas about the state_write guard predicates. -/

/-- The guard scan splits over appending. -/
theorem guardedGo_append (level : Nat) :
    ∀ (a b pre : List Ev),
    guardedGo level pre (a ++ b) =
      (guardedGo level pre a && guardedGo level (pre ++ a) b) := by
  intro a
  induction a with
  | nil => intro b pre; simp [guardedGo]
  | cons e a' ih =>
    intro b pre
    simp only [List.cons_append, guardedGo, List.append_eq]
    rw [ih b (pre ++ [e])]
    rw [Bool.and_assoc, List.append_assoc]
    rfl

/-- A chunk with no state_write passes the guard scan from any prefix. -/
theorem guardedGo_no_swrite (level : Nat) :
    ∀ (c pre : List Ev), (∀ e ∈ c, e ≠ Ev.swrite) → guardedGo level pre c = true := by
  intro c
  induction c with
  | nil => intro pre _; rfl
  | cons e c' ih =>
    intro pre hc
    simp only [guardedGo]
    rw [if_neg (hc e (List.mem_cons_self e c'))]
    simpa using ih (pre ++ [e]) (fun x hx => hc x (List.mem_cons_of_mem e hx))

/-- A full sweep followed by a state_write passes the guard scan from
any prefix. -/
theorem guardedGo_sync_chunk (level : Nat) (pre : List Ev) :
    guardedGo level pre (psyncRun level ++ [Ev.swrite]) = true := by
  rw [guardedGo_append]
  rw [guardedGo_no_swrite level (psyncRun level) pre
    (by intro e he; obtain ⟨l', _, rfl⟩ := List.mem_map.mp he; simp)]
  have hsuf : endsWithSyncs level (pre ++ psyncRun level) = true := by
    unfold endsWithSyncs
    rw [decide_eq_true_eq]
    exact List.suffix_append pre (psyncRun level)
  simp [guardedGo, hsuf]

/-- Extending a guarded trace with a fully-guarded chunk keeps it
guarded. -/
theorem guardedB_append_chunk (level : Nat) (es c : List Ev)
    (h1 : guardedB level es = true) (h2 : ∀ pre, guardedGo level pre c = true) :
    guardedB level (es ++ c) = true := by
  unfold guardedB at h1 ⊢
  rw [guardedGo_append, h1, List.nil_append, h2 es]
  rfl

/-- Events of a per-index outcome. -/
def evOfPI : Except BailSt DoneRec → List Ev
  | .ok d => d.events
  | .error b => b.events

/-- Events of a parity-write-loop outcome. -/
def evOfPW : Except PWriteSt PWriteSt → List Ev
  | .ok w => w.events
  | .error w => w.events

/-- The parity-write loop emits no state_write events. -/
theorem parityWrites_no_swrite (env : SyncEnv) (i : Nat) :
    ∀ (ws : List WRes) (l : Nat) (st : PWriteSt), (∀ e ∈ st.events, e ≠ Ev.swrite) →
    ∀ e ∈ evOfPW (parityWrites env i ws l st), e ≠ Ev.swrite := by
  intro ws
  induction ws with
  | nil => intro l st h e he; exact h e he
  | cons w rest ih =>
    intro l st h e he
    have hstep : ∀ x ∈ st.events ++ [Ev.pwrite l i], x ≠ Ev.swrite := by
      intro x hx
      rcases List.mem_append.mp hx with hx | hx
      · exact h x hx
      · rcases List.mem_cons.mp hx with rfl | hx
        · simp
        · cases hx
    simp only [parityWrites] at he
    cases w with
    | ok =>
      exact ih (l + 1) { st with events := st.events ++ [Ev.pwrite l i] } hstep e he
    | eio =>
      by_cases hlim : env.ioErrorLimit ≤ st.ios
      · rw [if_pos hlim] at he
        simp only [evOfPW] at he
        exact hstep e he
      · rw [if_neg hlim] at he
        exact ih (l + 1)
          { st with events := st.events ++ [Ev.pwrite l i], ios := st.ios + 1, ioB := true }
          hstep e he
    | other =>
      simp only [evOfPW] at he
      exact hstep e he

/-- A bail of the per-disk loop carries no events. -/
theorem diskStep_err_events (env : SyncEnv) (rehash : Bool) (j : Nat) (dc : DiskCase)
    (st : LoopSt) (b : BailSt) (h : diskStep env rehash j dc st = .error b) :
    b.events = [] := by
  unfold diskStep at h
  cases hb : nthD st.blocks j none with
  | none => rw [hb] at h; simp at h
  | some bl =>
    rw [hb] at h
    simp only at h
    repeat' split at h
    all_goals first
      | (simp only [Except.error.injEq] at h; subst h; rfl)
      | simp at h

/-- A bail of the disk loop carries no events. -/
theorem diskLoop_err_events (env : SyncEnv) (rehash : Bool) :
    ∀ (dcs : List DiskCase) (j : Nat) (st : LoopSt) (b : BailSt),
    diskLoop env rehash dcs j st = .error b → b.events = [] := by
  intro dcs
  induction dcs with
  | nil => intro j st b h; simp [diskLoop] at h
  | cons dc rest ih =>
    intro j st b h
    simp only [diskLoop] at h
    cases hs : diskStep env rehash j dc st with
    | error b' =>
      rw [hs] at h
      simp only [Except.error.injEq] at h
      subst h
      exact diskStep_err_events env rehash j dc st b' hs
    | ok st1 =>
      rw [hs] at h
      exact ih (j + 1) st1 b h

/-- A bail of the recovery attempt carries no events. -/
theorem recoveryPhase_err_events (env : SyncEnv) (rehash : Bool) (pReads : List PRes)
    (st : LoopSt) (b : BailSt) (h : recoveryPhase env rehash pReads st = .error b) :
    b.events = [] := by
  unfold recoveryPhase recoveryCore at h
  simp only [] at h
  repeat' split at h
  all_goals try (simp only [Except.error.injEq] at h; subst h; rfl)
  all_goals simp at h

/-- The per-index processing emits no state_write events. -/
theorem processIndex_no_swrite (env : SyncEnv) (i : Nat) (info : Info)
    (blocks : List Slot0) (dcs : List DiskCase) (pReads : List PRes) (pWrites : List WRes)
    (e0 s0 io0 : Nat) :
    ∀ e ∈ evOfPI (processIndex env i info blocks dcs pReads pWrites e0 s0 io0),
      e ≠ Ev.swrite := by
  unfold processIndex
  cases hdl : diskLoop env info.rehash dcs 0 (initLoopSt info blocks e0 s0 io0) with
  | error b =>
    intro e he
    simp only [evOfPI] at he
    rw [diskLoop_err_events env info.rehash dcs 0 _ b hdl] at he
    cases he
  | ok st =>
    dsimp only
    cases hrp : recoveryPhase env info.rehash pReads st with
    | error b =>
      intro e he
      simp only [evOfPI] at he
      rw [recoveryPhase_err_events env info.rehash pReads st b hrp] at he
      cases he
    | ok r =>
      dsimp only
      unfold finishIndex
      split
      · by_cases hpn : r.st.parityNeeds = true
        · simp only [hpn, if_true]
          cases hw : parityWrites env i pWrites 0 ⟨false, r.st.ios, r.st.errors, []⟩ with
          | error w =>
            intro e he
            simp only [evOfPI] at he
            have := parityWrites_no_swrite env i pWrites 0
              ⟨false, r.st.ios, r.st.errors, []⟩ (by intro x hx; cases hx)
            rw [hw] at this
            exact this e he
          | ok w =>
            intro e he
            simp only [evOfPI] at he
            have := parityWrites_no_swrite env i pWrites 0
              ⟨false, r.st.ios, r.st.errors, []⟩ (by intro x hx; cases hx)
            rw [hw] at this
            exact this e he
        · have hpn' : r.st.parityNeeds = false := by simpa using hpn
          simp only [hpn', Bool.false_eq_true, if_false]
          intro e he
          simp only [evOfPI] at he
          cases he
      · intro e he
        simp only [evOfPI] at he
        cases he

/-- Events of a bail of the per-index processing contain no state_write. -/
theorem err_events_no_swrite {env : SyncEnv} {i : Nat} {info : Info}
    {blocks : List Slot0} {dcs : List DiskCase} {pReads : List PRes} {pWrites : List WRes}
    {e0 s0 io0 : Nat} {b : BailSt}
    (hb : processIndex env i info blocks dcs pReads pWrites e0 s0 io0 = .error b) :
    ∀ e ∈ b.events, e ≠ Ev.swrite := by
  have hns := processIndex_no_swrite env i info blocks dcs pReads pWrites e0 s0 io0
  rw [hb] at hns
  simpa only [evOfPI] using hns

/-- Events of a completed per-index processing contain no state_write. -/
theorem ok_events_no_swrite {env : SyncEnv} {i : Nat} {info : Info}
    {blocks : List Slot0} {dcs : List DiskCase} {pReads : List PRes} {pWrites : List WRes}
    {e0 s0 io0 : Nat} {d : DoneRec}
    (hd : processIndex env i info blocks dcs pReads pWrites e0 s0 io0 = .ok d) :
    ∀ e ∈ d.events, e ≠ Ev.swrite := by
  have hns := processIndex_no_swrite env i info blocks dcs pReads pWrites e0 s0 io0
  rw [hd] at hns
  simpa only [evOfPI] using hns

/-- The main sync loop keeps the trace guarded: every state_write it
emits (the autosave checkpoints) is immediately preceded by a full
successful parity_sync sweep. -/
theorem syncLoop_guarded (env : SyncEnv) :
    ∀ (slots : List IndexSlot) (st : RunSt),
    guardedB env.level st.events = true →
    guardedB env.level (syncLoop env slots st).1.events = true := by
  intro slots
  induction slots with
  | nil => intro st h; exact h
  | cons s rest ih =>
    intro st h
    simp only [syncLoop]
    split
    · exact ih _ h
    · split
      next b hb =>
        dsimp only
        exact guardedB_append_chunk env.level _ b.events h fun pre =>
          guardedGo_no_swrite env.level b.events pre (err_events_no_swrite hb)
      next d hd =>
        have h2 : guardedB env.level (st.events ++ d.events) = true :=
          guardedB_append_chunk env.level _ _ h fun pre =>
            guardedGo_no_swrite env.level d.events pre (ok_events_no_swrite hd)
        split
        · dsimp only
          exact h2
        · split
          · split
            next hr =>
              refine ih _ ?_
              dsimp only
              have hr1 : (psyncLoop s.autosaveOk (List.range env.level)).1
                  = psyncRun env.level :=
                psyncLoop_complete s.autosaveOk (List.range env.level) hr
              rw [hr1, List.append_assoc]
              exact guardedB_append_chunk env.level _ _ h2 fun pre =>
                guardedGo_sync_chunk env.level pre
            next hr =>
              dsimp only
              refine guardedB_append_chunk env.level _ _ h2 fun pre => ?_
              refine guardedGo_no_swrite env.level _ pre fun e he => ?_
              obtain ⟨l, hl⟩ :=
                psyncLoop_only_psync s.autosaveOk (List.range env.level) e he
              subst hl
              simp
          · exact ih _ h2

/-- The finishing stage appends only psync events, so it keeps the
trace guarded. -/
theorem syncFinish_guarded (env : SyncEnv) (st : RunSt) (mode : LoopEnd)
    (h : guardedB env.level st.events = true) :
    guardedB env.level (syncFinish env st mode).events = true := by
  unfold syncFinish
  split
  · exact h
  · simp only []
    split
    all_goals refine guardedB_append_chunk env.level _ _ h fun pre => ?_
    all_goals refine guardedGo_no_swrite env.level _ pre fun e he => ?_
    all_goals obtain ⟨l, hl⟩ :=
      psyncLoop_only_psync env.finalSyncOk (List.range env.level) e he
    all_goals subst hl
    all_goals simp

/-- Every run of the sync pass is guarded: each state_write it issues
(the autosave checkpoints) follows a full successful parity_sync sweep. -/
theorem syncProcess_guarded (env : SyncEnv) (slots : List IndexSlot) (ia : Nat → Info) :
    guardedB env.level (syncProcess env slots ia).events = true := by
  unfold syncProcess
  refine syncFinish_guarded env _ _ ?_
  split
  · exact syncLoop_guarded env slots _ rfl
  · rfl

/-- A chunk passing the strict guard scan also passes the weak scan
after any extra prefix. -/
theorem safeGo_of_guardedGo (level : Nat) :
    ∀ (evs pre pre0 : List Ev), guardedGo level pre evs = true →
    safeGo level (pre0 ++ pre) evs = true := by
  intro evs
  induction evs with
  | nil => intro pre pre0 _; rfl
  | cons e rest ih =>
    intro pre pre0 h
    simp only [guardedGo] at h
    rw [Bool.and_eq_true] at h
    simp only [safeGo]
    rw [Bool.and_eq_true]
    constructor
    · by_cases hsw : e = Ev.swrite
      · rw [if_pos hsw] at h ⊢
        have hsuf : psyncRun level <:+ pre := by
          have h1 := h.1
          unfold endsWithSyncs at h1
          exact of_decide_eq_true h1
        unfold wguardOk endsWithSyncs
        rw [Bool.or_eq_true]
        left
        rw [decide_eq_true_eq]
        exact hsuf.trans (List.suffix_append pre0 pre)
      · rw [if_neg hsw]
    · rw [List.append_assoc]
      exact ih (pre ++ [e]) pre0 h.2

/-- A trace made of an optional leading state_write (the prehash
checkpoint, before any parity write) followed by a guarded chunk passes
the weak scan. -/
theorem safeB_pre_sync (level : Nat) (P S : List Ev)
    (hP : P = [] ∨ P = [Ev.swrite]) (hS : S = [] ∨ guardedB level S = true) :
    safeB level (P ++ S) = true := by
  rcases hP with rfl | rfl
  · rw [List.nil_append]
    rcases hS with rfl | hg
    · rfl
    · have hgo := safeGo_of_guardedGo level S [] [] hg
      simpa using hgo
  · rcases hS with rfl | hg
    · simp [safeB, safeGo, wguardOk, noPwAll]
    · rw [List.singleton_append]
      unfold safeB
      simp only [safeGo]
      rw [Bool.and_eq_true]
      constructor
      · simp [wguardOk, noPwAll]
      · have hgo := safeGo_of_guardedGo level S [] [Ev.swrite] hg
        simpa using hgo

/-- Every driver run is weakly guarded: each state_write it issues
either follows a full successful parity_sync sweep or precedes every
parity write of the run. -/
theorem stateSync_safe (din : DriverIn) :
    safeB din.env.level (stateSync din).events = true := by
  unfold stateSync
  simp only []
  split
  · rfl
  · split
    · rfl
    · split
      · rfl
      · split
        · rfl
        · dsimp only
          split
          · dsimp only
            split
            all_goals repeat' split
            all_goals first
              | exact safeB_pre_sync _ _ _ (Or.inr rfl)
                  (Or.inr (syncProcess_guarded din.env din.slots din.infoarr))
              | exact safeB_pre_sync _ _ _ (Or.inr rfl) (Or.inl rfl)
              | exact safeB_pre_sync _ _ _ (Or.inl rfl)
                  (Or.inr (syncProcess_guarded din.env din.slots din.infoarr))
              | rfl
          · dsimp only
            repeat' split
            all_goals first
              | exact safeB_pre_sync _ _ _ (Or.inl rfl)
                  (Or.inr (syncProcess_guarded din.env din.slots din.infoarr))
              | rfl

/-- Driver input whose prehash checkpoint writes the content file:
prehash enabled and the state already dirty, with an empty block range
so the sync pass is skipped. -/
def cDinC6 : DriverIn :=
  ⟨cEnv, true, 0, 0, 0, 0, fun _ => true, fun _ => 0, fun _ => true, fun _ => true,
   false, true, cHashIn, [], cInfoArr0⟩

/-- C6 (amended): within the sync pass every state_write (the autosave
checkpoints) is immediately preceded by a successful parity_sync of
every parity level; across a whole state_sync run every state_write
either follows such a full sweep or is issued before any parity write
(the prehash checkpoint, which has no preceding parity_sync but also
precedes every parity write of the run). -/
theorem swrite_flush_guard :
    (∀ (env : SyncEnv) (slots : List IndexSlot) (ia : Nat → Info),
      guardedB env.level (syncProcess env slots ia).events = true) ∧
    (∀ din : DriverIn, safeB din.env.level (stateSync din).events = true) :=
  ⟨syncProcess_guarded, stateSync_safe⟩

/-- Counterexample to C6 as stated: the prehash checkpoint of the
driver issues a state_write that is not immediately preceded by a
parity_sync of every level — the run's trace fails the strict guard. -/
theorem state_write_guard_cex :
    (stateSync cDinC6).events = [Ev.swrite] ∧
    guardedB cDinC6.env.level (stateSync cDinC6).events = false :=
  ⟨by decide, by decide⟩

/-- The amended C6 guard instantiated on concrete runs. -/
theorem swrite_flush_guard_witness :
    guardedB cEnv.level (syncProcess cEnv [] cInfoArr0).events = true ∧
    safeB cDinC6.env.level (stateSync cDinC6).events = true :=
  ⟨swrite_flush_guard.1 cEnv [] cInfoArr0, swrite_flush_guard.2 cDinC6⟩
